import Mathlib

/-!
Shallow embedding of the tame-gcs protocol/codec layer (Rust) in Lean 4,
together with theorems settling the frozen claims about its specification.

Conventions used throughout:
* machine bytes are modelled as `Nat` values (each < 256 where it matters);
* Rust `String`/`str` values are modelled as Lean `String`;
* fallible Rust functions returning `Result<T, Error>` are modelled as
  `Except Gcs.Error T`;
* external crates (serde_json parsing, the digest / RSA signing capabilities)
  are modelled as explicit function parameters, since they are collaborators
  outside this repository; everything implemented in the repository itself is
  translated directly from the source.
-/

namespace Gcs

/-- UTF-8 encoding of one character, as byte values. -/
def utf8EncodeChar (c : Char) : List Nat :=
  let n := c.toNat
  if n < 128 then [n]
  else if n < 2048 then [192 + n / 64, 128 + n % 64]
  else if n < 65536 then [224 + n / 4096, 128 + (n / 64) % 64, 128 + n % 64]
  else [240 + n / 262144, 128 + (n / 4096) % 64, 128 + (n / 64) % 64, 128 + n % 64]

/-- The UTF-8 bytes of a string (Rust `str::as_bytes`). -/
def strBytes (s : String) : List Nat :=
  s.data.flatMap utf8EncodeChar

/-- `util::to_hex`: lower-case hex encoding of a byte slice. -/
def hexDigit (n : Nat) : Char :=
  Char.ofNat (if n < 10 then 48 + n else 87 + n)

/-- `util::to_hex` over a byte list. -/
def toHex (input : List Nat) : String :=
  String.mk (input.flatMap (fun b => [hexDigit (b / 16), hexDigit (b % 16)]))

/-- `p.isPrefixOf s` over characters, mirroring Rust `str::starts_with`. -/
def listStartsWith : List Char → List Char → Bool
  | [], _ => true
  | _ :: _, [] => false
  | p :: ps, s :: ss => p = s && listStartsWith ps ss

/-- Rust `str::contains` for a literal pattern: some contiguous run of `s`
equals `p`. -/
def listHasSeq (p : List Char) : List Char → Bool
  | [] => listStartsWith p []
  | c :: rest => listStartsWith p (c :: rest) || listHasSeq p rest

/-- Structured API error payload (`error::ApiErrorInner`). -/
structure ApiErrorInner where
  domain : Option String
  reason : Option String
  message : Option String
deriving DecidableEq, Repr

/-- Structured API error payload (`error::ApiError`). -/
structure ApiError where
  code : Nat
  message : String
  errors : List ApiErrorInner
deriving DecidableEq, Repr

/-- The crate's `error::Error` enum (the variants relevant to the claims;
payloads carrying foreign types are reduced to the data the code inspects). -/
inductive Error where
  | InvalidCharacterCount (len min max : Nat)
  | InvalidLength (len min max : Nat)
  | InvalidCharacter (i : Nat) (c : Char)
  | InvalidPrefix (p : String)
  | InvalidSequence (s : String)
  | Http
  | HttpStatus (code : Nat)
  | UnknownHeader (name : String)
  | Api (e : ApiError)
  | Json
  | InsufficientData
  | KeyRejected (reason : String)
  | SigningError
  | TooLongExpiration (requested max : Nat)
  | UrlParse
  | OpaqueHeaderValue (bytes : List Nat)
  | Io
  | UrlEncode
deriving DecidableEq, Repr

/-- Rust `char::is_ascii_uppercase`. -/
def isAsciiUpper (c : Char) : Bool :=
  65 ≤ c.toNat && c.toNat ≤ 90

/-- The `'a'..='z' | '0'..='9'` arm of `BucketName::validate`. -/
def isLowerOrDigit (c : Char) : Bool :=
  (97 ≤ c.toNat && c.toNat ≤ 122) || (48 ≤ c.toNat && c.toNat ≤ 57)

/-- The character scan of `BucketName::validate` (`types.rs`): returns the
first offending `(index, char)`, if any.  `last` is `count - 1`. -/
def bucketCharScan (last : Nat) : Nat → List Char → Option (Nat × Char)
  | _, [] => none
  | i, c :: rest =>
    if isAsciiUpper c then some (i, c)
    else if isLowerOrDigit c then bucketCharScan last (i + 1) rest
    else if c = '-' ∨ c = '_' then
      if i = 0 ∨ i = last then some (i, c) else bucketCharScan last (i + 1) rest
    else some (i, c)

/-- `BucketName::validate` from `types.rs`. -/
def BucketName.validate (name : String) : Except Error Unit :=
  let cs := name.data
  let count := cs.length
  if 3 ≤ count ∧ count ≤ 63 then
    match bucketCharScan (count - 1) 0 cs with
    | some (i, c) => .error (.InvalidCharacter i c)
    | none =>
      if listStartsWith "goog".data cs then .error (.InvalidPrefix "goog")
      else if listHasSeq "google".data cs || listHasSeq "g00gle".data cs then
        .error (.InvalidSequence "google")
      else .ok ()
  else .error (.InvalidCharacterCount count 3 63)

/-- The forbidden-character predicate of `ObjectName::validate`. -/
def isObjectBadChar (c : Char) : Bool :=
  c = '\r' || c = '\n' || c = '#' || c = '[' || c = ']' || c = '*' || c = '?'
    || (0x7F ≤ c.toNat && c.toNat ≤ 0x84) || (0x86 ≤ c.toNat && c.toNat ≤ 0x9F)

/-- The character scan of `ObjectName::validate`. -/
def objectCharScan : Nat → List Char → Option (Nat × Char)
  | _, [] => none
  | i, c :: rest =>
    if isObjectBadChar c then some (i, c) else objectCharScan (i + 1) rest

/-- `ObjectName::validate` from `types.rs` (`name.len()` counts UTF-8
bytes). -/
def ObjectName.validate (name : String) : Except Error Unit :=
  let len := name.utf8ByteSize
  if len = 0 ∨ len > 1024 then .error (.InvalidLength len 1 1024)
  else if name = "." ∨ name = "..." then .error (.InvalidPrefix ".")
  else
    match objectCharScan 0 name.data with
    | some (i, c) => .error (.InvalidCharacter i c)
    | none =>
      if listStartsWith ".well-known/acme-challenge".data name.data then
        .error (.InvalidPrefix ".well-known/acme-challenge")
      else .ok ()

/-! ## JSON values and serde_json-compatible rendering

Only the shapes `Metadata` serialization can produce are needed: strings and
objects (the user-metadata map serializes as a nested object of strings). -/

/-- The JSON fragment grammar produced by serializing `Metadata`. -/
inductive Json where
  | str (s : String)
  | obj (fields : List (String × Json))
deriving Repr

/-- serde_json escaping of one character inside a JSON string literal
(lower-case `\u00xx` for unnamed control characters). -/
def jsonEscapeChar (c : Char) : List Char :=
  if c = '"' then ['\\', '"']
  else if c = '\\' then ['\\', '\\']
  else if c.toNat = 8 then ['\\', 'b']
  else if c.toNat = 9 then ['\\', 't']
  else if c.toNat = 10 then ['\\', 'n']
  else if c.toNat = 12 then ['\\', 'f']
  else if c.toNat = 13 then ['\\', 'r']
  else if c.toNat < 32 then
    ['\\', 'u', '0', '0', hexDigit (c.toNat / 16), hexDigit (c.toNat % 16)]
  else [c]

/-- serde_json rendering of a JSON string literal. -/
def jsonStringLit (s : String) : String :=
  String.mk ('"' :: s.data.flatMap jsonEscapeChar ++ ['"'])

mutual

/-- Compact serde_json rendering (`serde_json::to_string` / `to_vec`). -/
def renderJson : Json → String
  | .str s => jsonStringLit s
  | .obj fields => "\x7b" ++ renderFields fields ++ "\x7d"

/-- Comma-separated `"key":value` members of a JSON object. -/
def renderFields : List (String × Json) → String
  | [] => ""
  | [(k, v)] => jsonStringLit k ++ ":" ++ renderJson v
  | (k, v) :: rest => jsonStringLit k ++ ":" ++ renderJson v ++ "," ++ renderFields rest

end

/-! ## Object metadata (`v1/objects.rs`) and its serialization -/

/-- `common::StorageClass`. -/
inductive StorageClass where
  | MultiRegional
  | Regional
  | Nearline
  | Coldline
  | Standard
  | DurableReducedAvailability
deriving DecidableEq, Repr

/-- The SCREAMING_SNAKE_CASE serde name of a storage class. -/
def StorageClass.serName : StorageClass → String
  | .MultiRegional => "MULTI_REGIONAL"
  | .Regional => "REGIONAL"
  | .Nearline => "NEARLINE"
  | .Coldline => "COLDLINE"
  | .Standard => "STANDARD"
  | .DurableReducedAvailability => "DURABLE_REDUCED_AVAILABILITY"

/-- `objects::Metadata` (`v1/objects.rs`).  Timestamps are kept as their
RFC 3339 strings; the user-metadata `BTreeMap` is its ascending entry
list. -/
structure Metadata where
  id : Option String := none
  selfLink : Option String := none
  name : Option String := none
  bucket : Option String := none
  generation : Option Int := none
  metageneration : Option Int := none
  contentType : Option String := none
  contentDisposition : Option String := none
  contentEncoding : Option String := none
  timeCreated : Option String := none
  updated : Option String := none
  storageClass : Option StorageClass := none
  timeStorageClassUpdated : Option String := none
  size : Option Nat := none
  md5Hash : Option String := none
  mediaLink : Option String := none
  contentLanguage : Option String := none
  crc32c : Option String := none
  etag : Option String := none
  metadata : Option (List (String × String)) := none
deriving Repr

/-- The all-`None` metadata (`Metadata::default()`). -/
def Metadata.empty : Metadata := {}

/-- One optional writable string field: emitted iff set
(`skip_serializing_if = "Option::is_none"`). -/
def optStrField (key : String) : Option String → List (String × Json)
  | none => []
  | some v => [(key, .str v)]

/-- The writable `storageClass` field: emitted iff set, as its serde
name. -/
def storageClassField : Option StorageClass → List (String × Json)
  | none => []
  | some sc => [("storageClass", .str sc.serName)]

/-- The writable user-metadata map: emitted iff set, as a nested string
object. -/
def userMetadataField : Option (List (String × String)) → List (String × Json)
  | none => []
  | some kvs => [("metadata", .obj (kvs.map fun kv => (kv.1, .str kv.2)))]

/-- The JSON object members `serde_json::to_vec` emits for a `Metadata`, in
struct declaration order.  Fields marked `skip_serializing` in the source
(`id`, `selfLink`, `bucket`, `generation`, `metageneration`, `timeCreated`,
`updated`, `timeStorageClassUpdated`, `size`, `mediaLink`, `etag`) are never
emitted; the remaining (writable) fields are emitted exactly when set. -/
def Metadata.serFields (m : Metadata) : List (String × Json) :=
  optStrField "name" m.name
    ++ optStrField "contentType" m.contentType
    ++ optStrField "contentDisposition" m.contentDisposition
    ++ optStrField "contentEncoding" m.contentEncoding
    ++ storageClassField m.storageClass
    ++ optStrField "md5Hash" m.md5Hash
    ++ optStrField "contentLanguage" m.contentLanguage
    ++ optStrField "crc32c" m.crc32c
    ++ userMetadataField m.metadata

/-- `serde_json::to_string(&metadata)` (and `to_vec`, as bytes). -/
def Metadata.toJsonString (m : Metadata) : String :=
  renderJson (.obj m.serFields)

/-! ## Multipart body encoder (`v1/objects/insert/multipart.rs`)

The inner body (Rust generic `B: io::Read`) is modelled as an in-memory byte
source, i.e. the remaining bytes it will yield; its `read` fills as much of
the offered buffer as it has bytes, exactly like the `std::io::Read`
implementations (`&[u8]`, `Cursor`) the crate is used and tested with. -/

/-- `MULTI_PART_SEPARATOR`. -/
def mpSeparator : List Nat := strBytes "--tame_gcs\n"

/-- `MULTI_PART_SUFFIX`. -/
def mpSuffix : List Nat := strBytes "\n--tame_gcs--"

/-- `MULTI_PART_CT`. -/
def mpJsonCt : List Nat := strBytes "content-type: application/json; charset=utf-8\n\n"

/-- `CT_HN` (the `content-type: ` header name for the binary part). -/
def mpCtHn : List Nat := strBytes "content-type: "

/-- `MultipartPart`: `Pre`, `Body`, `Suffix`, `End` model the source's
`Prefix`, `Body`, `Suffix`, `End` states. -/
inductive MultipartPart where
  | Pre
  | Body
  | Suffix
  | End
deriving DecidableEq, Repr

/-- `Multipart<B>` together with its cursor; `body` is what remains of the
inner byte source, `pre` the precomputed prefix buffer. -/
structure Multipart where
  body : List Nat
  pre : List Nat
  bodyLen : Nat
  totalLen : Nat
  position : Nat
  part : MultipartPart
deriving Repr

/-- The precomputed prefix buffer `Multipart::wrap` assembles: boundary,
JSON content-type header, serialized metadata, boundary, binary-part
content-type (defaulting to `application/octet-stream`). -/
def wrapPre (metadata : Metadata) : List Nat :=
  mpSeparator ++ mpJsonCt ++ strBytes metadata.toJsonString ++ strBytes "\n"
    ++ mpSeparator ++ mpCtHn
    ++ strBytes (metadata.contentType.getD "application/octet-stream")
    ++ strBytes "\n\n"

/-- The `prefix_len` computed by `Multipart::wrap` before assembling the
buffer. -/
def wrapPreLen (metadata : Metadata) : Nat :=
  mpSeparator.length + mpJsonCt.length + (strBytes metadata.toJsonString).length + 1
    + mpSeparator.length + mpCtHn.length
    + (strBytes (metadata.contentType.getD "application/octet-stream")).length + 2

/-- `Multipart::wrap(body, body_length, metadata)`.  Serializing `Metadata`
cannot fail, so the `Result` is always `Ok`, matching the code path taken. -/
def Multipart.wrap (body : List Nat) (bodyLength : Nat) (metadata : Metadata) :
    Except Error Multipart :=
  .ok { body, pre := wrapPre metadata, bodyLen := bodyLength,
        totalLen := wrapPreLen metadata + bodyLength + mpSuffix.length,
        position := 0, part := .Pre }

/-- One `while total_copied < buffer.len()` loop of `Multipart::read`,
with explicit fuel.  `none` models the case where the Rust loop never
terminates (an exhausted inner source that stopped short of `body_len`
repeats the same state forever). -/
def readLoop : Nat → Multipart → Nat → Option (List Nat × Multipart)
  | 0, _, _ => none
  | _ + 1, m, 0 => some ([], m)
  | fuel + 1, m, room + 1 =>
    match m.part with
    | .End => some ([], m)
    | .Pre =>
      let toCopy := min (room + 1) (m.pre.length - m.position)
      let out := (m.pre.drop m.position).take toCopy
      let pos := m.position + toCopy
      let m' := if pos = m.pre.length then { m with position := 0, part := .Body }
        else { m with position := pos }
      (readLoop fuel m' (room + 1 - toCopy)).map fun r => (out ++ r.1, r.2)
    | .Body =>
      let copied := min (room + 1) m.body.length
      if copied = 0 ∧ m.position ≠ m.bodyLen then none
      else
        let out := m.body.take copied
        let pos := m.position + copied
        let m1 := { m with body := m.body.drop copied, position := pos }
        let m' := if pos = m.bodyLen then { m1 with position := 0, part := .Suffix }
          else m1
        (readLoop fuel m' (room + 1 - copied)).map fun r => (out ++ r.1, r.2)
    | .Suffix =>
      let toCopy := min (room + 1) (mpSuffix.length - m.position)
      let out := (mpSuffix.drop m.position).take toCopy
      let pos := m.position + toCopy
      let m' := if pos = mpSuffix.length then { m with position := 0, part := .End }
        else { m with position := pos }
      (readLoop fuel m' (room + 1 - toCopy)).map fun r => (out ++ r.1, r.2)

/-- `Multipart::read` into a buffer of length `room`: the bytes copied and
the updated state.  `room + 4` iterations always suffice: every iteration
either copies at least one byte or advances the part cursor. -/
def Multipart.read (m : Multipart) (room : Nat) : Option (List Nat × Multipart) :=
  readLoop (room + 4) m room

/-- Iteration budget left for a given part: from each part, at most this
many loop iterations beyond the copied bytes can occur (the part
transitions plus the final return). -/
def MultipartPart.slack : MultipartPart → Nat
  | .Pre => 4
  | .Body => 3
  | .Suffix => 2
  | .End => 1

/-- The bytes the stream will still yield from state `m` (for states whose
inner source holds exactly the undelivered declared bytes). -/
def Multipart.remaining (m : Multipart) : List Nat :=
  match m.part with
  | .Pre => m.pre.drop m.position ++ m.body ++ mpSuffix
  | .Body => m.body ++ mpSuffix
  | .Suffix => mpSuffix.drop m.position
  | .End => []

/-- Well-formedness of a `Multipart` state whose inner source offers exactly
the declared bytes: the cursor sits inside the current segment and the
undelivered inner bytes account exactly for `bodyLen`. -/
def Multipart.WF (m : Multipart) : Prop :=
  match m.part with
  | .Pre => m.position < m.pre.length ∧ m.body.length = m.bodyLen
  | .Body => m.position + m.body.length = m.bodyLen
  | .Suffix => m.position < mpSuffix.length ∧ m.body = []
  | .End => m.body = []

/-- Reading a sequence of buffer sizes, concatenating all copied bytes
(`drain`-style consumption used by the crate's tests). -/
def Multipart.drain (m : Multipart) : List Nat → Option (List Nat × Multipart)
  | [] => some ([], m)
  | k :: ks =>
    match m.read k with
    | some (out, m') =>
      match m'.drain ks with
      | some (rest, mf) => some (out ++ rest, mf)
      | none => none
    | none => none

/-! ## UTF-8 decoding (`std::str::from_utf8`) -/

/-- A UTF-8 continuation byte. -/
def utf8Cont (b : Nat) : Bool := 128 ≤ b && b ≤ 191

/-- Standard UTF-8 decoding with structural fuel (`fuel` is at least the
number of bytes, so the fuel-exhausted branch is unreachable). -/
def utf8DecodeAux : Nat → List Nat → Option (List Char)
  | _, [] => some []
  | 0, _ :: _ => none
  | fuel + 1, b :: rest =>
    if b < 128 then (utf8DecodeAux fuel rest).map (Char.ofNat b :: ·)
    else if b < 194 then none
    else if b ≤ 223 then
      match rest with
      | c1 :: rest1 =>
        if utf8Cont c1 then
          (utf8DecodeAux fuel rest1).map (Char.ofNat ((b - 192) * 64 + (c1 - 128)) :: ·)
        else none
      | [] => none
    else if b ≤ 239 then
      match rest with
      | c1 :: c2 :: rest2 =>
        let lo1 := if b = 224 then 160 else 128
        let hi1 := if b = 237 then 159 else 191
        if lo1 ≤ c1 && c1 ≤ hi1 && utf8Cont c2 then
          (utf8DecodeAux fuel rest2).map
            (Char.ofNat ((b - 224) * 4096 + (c1 - 128) * 64 + (c2 - 128)) :: ·)
        else none
      | _ => none
    else if b ≤ 244 then
      match rest with
      | c1 :: c2 :: c3 :: rest3 =>
        let lo1 := if b = 240 then 144 else 128
        let hi1 := if b = 244 then 143 else 191
        if lo1 ≤ c1 && c1 ≤ hi1 && utf8Cont c2 && utf8Cont c3 then
          (utf8DecodeAux fuel rest3).map
            (Char.ofNat ((b - 240) * 262144 + (c1 - 128) * 4096 + (c2 - 128) * 64
              + (c3 - 128)) :: ·)
        else none
      | _ => none
    else none

/-- Standard UTF-8 decoding, rejecting overlong forms, surrogates and
out-of-range code points, exactly as `std::str::from_utf8` does. -/
def utf8Decode (bs : List Nat) : Option (List Char) :=
  utf8DecodeAux bs.length bs

/-- `std::str::from_utf8` returning a string. -/
def utf8DecodeStr (bs : List Nat) : Option String :=
  (utf8Decode bs).map String.mk

/-- Rebuilding text from bytes already known to be ASCII (used after the
code has validated a header value). -/
def bytesToStr (bs : List Nat) : String :=
  String.mk (bs.map Char.ofNat)

/-! ## Header values and shared header helpers

An `http::HeaderValue` is a byte sequence; `to_str` succeeds only for
visible-ASCII bytes (32–126) and horizontal tab. -/

/-- `http::HeaderValue::to_str`. -/
def headerToStr (v : List Nat) : Option String :=
  if v.all (fun b => b = 9 || (32 ≤ b && b ≤ 126)) then some (bytesToStr v) else none

/-- `HeaderMap::get`: the first value for a (lowercase) header name. -/
def headerGet (headers : List (String × List Nat)) (name : String) : Option (List Nat) :=
  (headers.find? (fun kv => kv.1 = name)).map (·.2)

/-- Rust `u64::from_str`: optional leading `+`, one or more ASCII digits,
value within `u64` range. -/
def parseU64 (s : String) : Option Nat :=
  let ds := match s.data with
    | '+' :: rest => rest
    | l => l
  if ds.isEmpty then none
  else if ds.all (fun c => 48 ≤ c.toNat && c.toNat ≤ 57) then
    let v := ds.foldl (fun acc c => acc * 10 + (c.toNat - 48)) 0
    if v < 2 ^ 64 then some v else none
  else none

/-- `util::get_content_length`. -/
def get_content_length (headers : List (String × List Nat)) : Option Nat :=
  (headerGet headers "content-length").bind fun h => (headerToStr h).bind parseU64

/-- `http::StatusCode::is_success` (2xx). -/
def isSuccessStatus (s : Nat) : Bool := 200 ≤ s && s < 300

/-! ## Streaming response decoder (`response.rs`) -/

/-- A decoded `http::Response` handed to an operation's constructor. -/
structure HttpResponse where
  status : Nat
  headers : List (String × List Nat)
  body : List Nat
deriving Repr

/-- `Response<T>`: the buffering decoder state.  `contentLen` is fixed at
construction from the declared `Content-Length` (0 when the header is
absent or unparseable, since `BytesMut::new()` has capacity 0). -/
structure ResponseState where
  status : Nat
  headers : List (String × List Nat)
  body : List Nat
  contentLen : Nat
deriving Repr

/-- `Response::new(parts)`. -/
def ResponseState.new (status : Nat) (headers : List (String × List Nat)) :
    ResponseState :=
  { status, headers, body := [], contentLen := (get_content_length headers).getD 0 }

/-- `io::Write::write` into the decoder: buffer more body bytes. -/
def ResponseState.write (r : ResponseState) (buf : List Nat) : ResponseState :=
  { r with body := r.body ++ buf }

/-- `Response::get_response`: succeed with the first `contentLen` buffered
bytes once enough have accumulated, else the recoverable
`InsufficientData`. -/
def ResponseState.get_response (r : ResponseState) : Except Error HttpResponse :=
  if r.contentLen ≤ r.body.length then
    .ok { status := r.status, headers := r.headers, body := r.body.take r.contentLen }
  else .error .InsufficientData

/-- `ApiResponse::try_from_parts` (the default method), generic over the
operation-specific success constructor; `parseApiErr` models
`serde_json::from_slice::<ApiError>` of the external serde_json crate. -/
def tryFromParts {T : Type} (parseApiErr : List Nat → Option ApiError)
    (ctor : HttpResponse → Except Error T) (resp : HttpResponse) : Except Error T :=
  if isSuccessStatus resp.status then ctor resp
  else
    match (headerGet resp.headers "content-type").bind headerToStr with
    | some ct =>
      if listStartsWith "application/json".data ct.data then
        match parseApiErr resp.body with
        | some apiErr => .error (.Api apiErr)
        | none => .error (.HttpStatus resp.status)
      else .error (.HttpStatus resp.status)
    | none => .error (.HttpStatus resp.status)

/-- `Response::parse`. -/
def ResponseState.parse {T : Type} (parseApiErr : List Nat → Option ApiError)
    (ctor : HttpResponse → Except Error T) (r : ResponseState) : Except Error T :=
  match r.get_response with
  | .ok resp => tryFromParts parseApiErr ctor resp
  | .error e => .error e

/-! ## Resumable upload response interpretation
(`v1/objects/insert/resumable.rs`) -/

/-- `ResumableInsertResponseMetadata`. -/
inductive ResumableInsertResponseMetadata where
  | PartialSize (bytes : Nat)
  | Complete (metadata : Metadata)
deriving Repr

/-- `range.split('-').last()`: the segment after the last `-` (the whole
string when there is no `-`; `split` always yields at least one segment, so
the code's `None => UnknownHeader(RANGE)` arm for it is unreachable). -/
def afterLastDash (s : String) : String :=
  String.mk ((s.data.reverse.takeWhile (fun c => c ≠ '-')).reverse)

/-- `TryFrom<http::Response<B>> for ResumableInsertResponse`; `parseMeta`
models `serde_json::from_slice::<Metadata>`. -/
def ResumableInsertResponse.tryFrom (parseMeta : List Nat → Option Metadata)
    (resp : HttpResponse) : Except Error ResumableInsertResponseMetadata :=
  if resp.status = 308 then
    match headerGet resp.headers "range" with
    | some rangeVal =>
      match headerToStr rangeVal with
      | some range =>
        match parseU64 (afterLastDash range) with
        | some pos => .ok (.PartialSize (pos + 1))
        | none => .error (.OpaqueHeaderValue rangeVal)
      | none => .error (.OpaqueHeaderValue rangeVal)
    | none => .error (.UnknownHeader "range")
  else
    match parseMeta resp.body with
    | some md => .ok (.Complete md)
    | none => .error .Json

/-- `ResumableInsertResponse::try_from_response`. -/
def ResumableInsertResponse.try_from_response (parseMeta : List Nat → Option Metadata)
    (resp : HttpResponse) : Except Error ResumableInsertResponseMetadata :=
  if resp.status = 308 ∨ resp.status = 200 ∨ resp.status = 201 then
    ResumableInsertResponse.tryFrom parseMeta resp
  else
    match (headerGet resp.headers "content-type").bind headerToStr with
    | some ct =>
      if listStartsWith "text/plain".data ct.data ∧ resp.body ≠ [] then
        match utf8DecodeStr resp.body with
        | some message => .error (.Api { code := resp.status, message, errors := [] })
        | none => .error (.HttpStatus resp.status)
      else .error (.HttpStatus resp.status)
    | none => .error (.HttpStatus resp.status)

/-- `CancelResumableInsertResponse::try_from_response`: only status 499 is
accepted; the inner `TryFrom` always succeeds with the unit-like value. -/
def CancelResumableInsertResponse.try_from_response (resp : HttpResponse) :
    Except Error Unit :=
  if resp.status = 499 then .ok () else .error (.HttpStatus resp.status)

/-! ## Percent- and form-encoding (`percent-encoding` and `url` crates) -/

/-- Upper-case hex digit, as used by percent-encoding. -/
def hexUpper (n : Nat) : Char :=
  Char.ofNat (if n < 10 then 48 + n else 55 + n)

/-- `percent_encoding::CONTROLS`: C0 controls and DEL. -/
def isControlByte (b : Nat) : Bool := b < 32 || b = 127

/-- `util::QUERY_ENCODE_SET`: controls plus space, `"`, `#`, `<`, `>`. -/
def inQueryEncodeSet (b : Nat) : Bool :=
  isControlByte b || b = 32 || b = 34 || b = 35 || b = 60 || b = 62

/-- `util::PATH_ENCODE_SET`: the query set plus backquote, `?`, both curly
braces, `%` and `/`. -/
def inPathEncodeSet (b : Nat) : Bool :=
  inQueryEncodeSet b || b = 96 || b = 63 || b = 123 || b = 125 || b = 37 || b = 47

/-- `percent_encoding::percent_encode`: bytes in the set, and every
non-ASCII byte, become `%XX`. -/
def pctEncode (inSet : Nat → Bool) (bs : List Nat) : String :=
  String.mk (bs.flatMap fun b =>
    if inSet b || 128 ≤ b then ['%', hexUpper (b / 16), hexUpper (b % 16)]
    else [Char.ofNat b])

/-- One byte of `application/x-www-form-urlencoded` serialization
(`url::form_urlencoded`, also used by serde_urlencoded): alphanumerics and
`*-._` are literal, space becomes `+`, everything else `%XX`. -/
def formEncodeByte (b : Nat) : List Char :=
  if b = 32 then ['+']
  else if (48 ≤ b && b ≤ 57) || (65 ≤ b && b ≤ 90) || (97 ≤ b && b ≤ 122)
      || b = 42 || b = 45 || b = 46 || b = 95 then [Char.ofNat b]
  else ['%', hexUpper (b / 16), hexUpper (b % 16)]

/-- Form-urlencode a string's UTF-8 bytes. -/
def formEncode (s : String) : String :=
  String.mk ((strBytes s).flatMap formEncodeByte)

/-- Serialize key/value pairs as a query string (`form_urlencoded`
`append_pair` joined by `&`). -/
def formUrlEncodePairs (pairs : List (String × String)) : String :=
  String.intercalate "&" (pairs.map fun kv => formEncode kv.1 ++ "=" ++ formEncode kv.2)

/-! ## Sorting (Rust's stable `Vec::sort`) -/

/-- Lexicographic `≤` on character lists by code point (agrees with Rust's
byte-wise `str` ordering). -/
def listLeB : List Char → List Char → Bool
  | [], _ => true
  | _ :: _, [] => false
  | x :: xs, y :: ys =>
    if x.toNat < y.toNat then true
    else if y.toNat < x.toNat then false
    else listLeB xs ys

/-- Lexicographic `≤` on strings. -/
def strLeB (a b : String) : Bool := listLeB a.data b.data

/-- `≤` on `(String, String)` pairs: first component, then second (the
`Ord` instance Rust's `Vec::<(String, String)>::sort` uses). -/
def pairLeB (a b : String × String) : Bool :=
  if a.1 = b.1 then strLeB a.2 b.2 else strLeB a.1 b.1

/-- Insert into an already-sorted list, after any equal elements. -/
def insertSorted {α : Type} (le : α → α → Bool) (x : α) : List α → List α
  | [] => [x]
  | y :: ys => if le y x then y :: insertSorted le x ys else x :: y :: ys

/-- Stable sort (insertion sort), modelling Rust's stable `sort`. -/
def stableSort {α : Type} (le : α → α → Bool) (l : List α) : List α :=
  l.foldl (fun acc x => insertSorted le x acc) []

/-! ## URL signing (`signed_url.rs`) -/

/-- ASCII lower-casing of a header name (header names are ASCII). -/
def asciiLowerChar (c : Char) : Char :=
  if 65 ≤ c.toNat ∧ c.toNat ≤ 90 then Char.ofNat (c.toNat + 32) else c

/-- `str::to_lowercase` restricted to ASCII header names. -/
def asciiLower (s : String) : String :=
  String.mk (s.data.map asciiLowerChar)

/-- `SignedUrlOptional` with its `Default` values.  `headers` models the
`http::HeaderMap`: unique (already lowercase) names, each holding its
values in insertion order. -/
structure SignedUrlOptional where
  method : String := "GET"
  durationSecs : Nat := 60 * 60
  headers : List (String × List (List Nat)) := []
  region : String := "auto"
  queryParams : List (String × String) := []

/-- The UTC clock reading (`time::OffsetDateTime::now_utc()`), supplied as
an input to the embedding. -/
structure UtcTimestamp where
  year : Nat
  month : Nat
  day : Nat
  hour : Nat
  minute : Nat
  second : Nat

/-- Zero-padded decimal (the `{:0width}` format). -/
def padNum (width n : Nat) : String :=
  let s := toString n
  String.mk (List.replicate (width - s.length) '0') ++ s

/-- The `YYYYMMDD'T'HHMMSS'Z'` request timestamp. -/
def formatTimestamp (t : UtcTimestamp) : String :=
  padNum 4 t.year ++ padNum 2 t.month ++ padNum 2 t.day ++ "T"
    ++ padNum 2 t.hour ++ padNum 2 t.minute ++ padNum 2 t.second ++ "Z"

/-- Join one header's values with `,` in request order; a value that is not
visible ASCII fails with `OpaqueHeaderValue` (first failure wins). -/
def joinHeaderValues : List (List Nat) → Except Error (List String)
  | [] => .ok []
  | v :: vs =>
    match headerToStr v with
    | some s => (joinHeaderValues vs).map (s :: ·)
    | none => .error (.OpaqueHeaderValue v)

/-- The header-aggregation loop of `UrlSigner::generate`: one
`(lowercased name, comma-joined values)` pair per header name. -/
def collectHeaders : List (String × List (List Nat)) → Except Error (List (String × String))
  | [] => .ok []
  | (k, vals) :: rest =>
    match joinHeaderValues vals with
    | .error e => .error e
    | .ok parts =>
      (collectHeaders rest).map ((asciiLower k, String.intercalate "," parts) :: ·)

/-- `headers.insert(http::header::HOST, "storage.googleapis.com")`: replace
any existing `host` entry with the single constant value. -/
def hostInsert (headers : List (String × List (List Nat))) :
    List (String × List (List Nat)) :=
  headers.filter (fun kv => kv.1 ≠ "host") ++ [("host", [strBytes "storage.googleapis.com"])]

/-- The artifacts of `UrlSigner::generate`: the final URL together with the
intermediate canonical request and string-to-sign of the same computation,
so theorems can speak about them. -/
structure SignedUrlArtifacts where
  canonicalRequest : String
  stringToSign : String
  url : String
deriving Repr

/-- The percent-encoded `/{bucket}/{object}` resource path. -/
def sigResourcePath (bucket object : String) : String :=
  "/" ++ pctEncode inPathEncodeSet (strBytes bucket)
    ++ "/" ++ pctEncode inPathEncodeSet (strBytes object)

/-- `{datestamp}/{region}/storage/goog4_request`. -/
def credScope (now : UtcTimestamp) (region : String) : String :=
  (formatTimestamp now).take 8 ++ "/" ++ region ++ "/storage/goog4_request"

/-- The semicolon-joined sorted header names. -/
def signedHeadersStr (hdrs : List (String × String)) : String :=
  String.intercalate ";" (hdrs.map (·.1))

/-- The canonical headers block: one `name:value` line per header, each
with a trailing newline. -/
def canonicalHeadersStr (hdrs : List (String × String)) : String :=
  String.join (hdrs.map fun kv => kv.1 ++ ":" ++ kv.2 ++ "\n")

/-- The five signing query parameters, in the order `query_params.extend`
appends them. -/
def signingParams (authorizer : String) (now : UtcTimestamp)
    (optional : SignedUrlOptional) (signedHeaders : String) : List (String × String) :=
  [("X-Goog-Algorithm", "GOOG4-RSA-SHA256"),
    ("X-Goog-Credential", authorizer ++ "/" ++ credScope now optional.region),
    ("X-Goog-Date", formatTimestamp now),
    ("X-Goog-Expires", toString optional.durationSecs),
    ("X-Goog-SignedHeaders", signedHeaders)]

/-- `METHOD\nPATH\nSORTED_QUERY\nCANONICAL_HEADERS\n\nSIGNED_HEADERS\nUNSIGNED-PAYLOAD`
(the headers block itself ends in a newline, giving the blank line). -/
def canonicalRequestStr (method path query headers signedHeaders : String) : String :=
  method ++ "\n" ++ path ++ "\n" ++ query ++ "\n" ++ headers ++ "\n"
    ++ signedHeaders ++ "\nUNSIGNED-PAYLOAD"

/-- `GOOG4-RSA-SHA256\n{timestamp}\n{scope}\n{hex digest}`. -/
def stringToSignStr (ts scope hexDigest : String) : String :=
  "GOOG4-RSA-SHA256\n" ++ ts ++ "\n" ++ scope ++ "\n" ++ hexDigest

/-- The sorted, form-urlencoded canonical query string of
`UrlSigner::generate`. -/
def genCanonicalQuery (authorizer : String) (now : UtcTimestamp)
    (optional : SignedUrlOptional) (hdrs0 : List (String × String)) : String :=
  formUrlEncodePairs (stableSort pairLeB (optional.queryParams
    ++ signingParams authorizer now optional
      (signedHeadersStr (stableSort pairLeB hdrs0))))

/-- The canonical request `UrlSigner::generate` hashes. -/
def genCanonicalRequest (authorizer bucket object : String) (now : UtcTimestamp)
    (optional : SignedUrlOptional) (hdrs0 : List (String × String)) : String :=
  canonicalRequestStr optional.method (sigResourcePath bucket object)
    (genCanonicalQuery authorizer now optional hdrs0)
    (canonicalHeadersStr (stableSort pairLeB hdrs0))
    (signedHeadersStr (stableSort pairLeB hdrs0))

/-- The string-to-sign `UrlSigner::generate` hands to the signer. -/
def genStringToSign (digest : String → List Nat) (authorizer bucket object : String)
    (now : UtcTimestamp) (optional : SignedUrlOptional)
    (hdrs0 : List (String × String)) : String :=
  stringToSignStr (formatTimestamp now) (credScope now optional.region)
    (toHex (digest (genCanonicalRequest authorizer bucket object now optional hdrs0)))

/-- The final signed URL: the already-built query string with
`X-Goog-Signature` appended last, outside the sort. -/
def genUrl (authorizer bucket object : String) (now : UtcTimestamp)
    (optional : SignedUrlOptional) (hdrs0 : List (String × String))
    (signature : List Nat) : String :=
  "https://storage.googleapis.com" ++ sigResourcePath bucket object ++ "?"
    ++ genCanonicalQuery authorizer now optional hdrs0
    ++ "&X-Goog-Signature=" ++ formEncode (toHex signature)

/-- `UrlSigner::generate`.  `digest` is the SHA-256 `DigestCalulator`
capability, `sign` the RSA-SHA256 `Signer` capability applied to the key
provider key, `authorizer` the provider identity, `bucket`/`object`
the `ObjectIdentifier`, `now` the UTC clock reading. -/
def UrlSigner.generate (digest : String → List Nat)
    (sign : String → Except Error (List Nat)) (authorizer : String)
    (bucket object : String) (now : UtcTimestamp) (optional : SignedUrlOptional) :
    Except Error SignedUrlArtifacts :=
  if 604800 < optional.durationSecs then
    .error (.TooLongExpiration optional.durationSecs 604800)
  else
    match collectHeaders (hostInsert optional.headers) with
    | .error e => .error e
    | .ok hdrs0 =>
      match sign (genStringToSign digest authorizer bucket object now optional hdrs0) with
      | .error e => .error e
      | .ok signature =>
        .ok { canonicalRequest := genCanonicalRequest authorizer bucket object now optional hdrs0,
              stringToSign := genStringToSign digest authorizer bucket object now optional hdrs0,
              url := genUrl authorizer bucket object now optional hdrs0 signature }

/-! ## `Object::insert_multipart` (`v1/objects/insert/multipart.rs`) -/

/-- `InsertObjectOptional` with flattened `StandardQueryParameters` and
`Conditionals`; `predefinedAcl`/`projection` carry the serde camelCase
variant name. -/
structure InsertObjectOptional where
  fields : Option String := none
  prettyPrint : Bool := false
  quotaUser : Option String := none
  userIp : Option String := none
  contentType : Option String := none
  contentEncoding : Option String := none
  ifGenerationMatch : Option Int := none
  ifGenerationNotMatch : Option Int := none
  ifMetagenerationMatch : Option Int := none
  ifMetagenerationNotMatch : Option Int := none
  kmsKeyName : Option String := none
  predefinedAcl : Option String := none
  projection : Option String := none
  userProject : Option String := none

/-- A pair emitted iff the optional value is set. -/
def optPair (key : String) : Option String → List (String × String)
  | none => []
  | some v => [(key, v)]

/-- A pair for an optional `i64`, rendered in decimal. -/
def optIntPair (key : String) : Option Int → List (String × String)
  | none => []
  | some v => [(key, toString v)]

/-- The key/value pairs `serde_urlencoded::to_string` serializes for an
`InsertObjectOptional`, in declaration order.  `content_type` is
`#[serde(skip)]`; `pretty_print` is skipped exactly when `true`
(`skip_serializing_if = "pretty_on"`). -/
def InsertObjectOptional.queryPairs (q : InsertObjectOptional) : List (String × String) :=
  optPair "fields" q.fields
    ++ (if q.prettyPrint then [] else [("prettyPrint", "false")])
    ++ optPair "quotaUser" q.quotaUser
    ++ optPair "userIp" q.userIp
    ++ optPair "contentEncoding" q.contentEncoding
    ++ optIntPair "ifGenerationMatch" q.ifGenerationMatch
    ++ optIntPair "ifGenerationNotMatch" q.ifGenerationNotMatch
    ++ optIntPair "ifMetagenerationMatch" q.ifMetagenerationMatch
    ++ optIntPair "ifMetagenerationNotMatch" q.ifMetagenerationNotMatch
    ++ optPair "kmsKeyName" q.kmsKeyName
    ++ optPair "predefinedAcl" q.predefinedAcl
    ++ optPair "projection" q.projection
    ++ optPair "userProject" q.userProject

/-- `serde_urlencoded::to_string` of an `InsertObjectOptional`. -/
def InsertObjectOptional.queryString (q : InsertObjectOptional) : String :=
  formUrlEncodePairs q.queryPairs

/-- An `http::Request` as the codec builds it. -/
structure HttpRequest (B : Type) where
  method : String
  uri : String
  headers : List (String × String)
  body : B

/-- The URI `Object::insert_multipart` builds: the percent-encoded bucket
path with `uploadType=multipart`, extended with the serialized optional
query parameters when non-empty. -/
def mpInsertUri (bucket : String) (optional : Option InsertObjectOptional) : String :=
  let uri0 := "https://www.googleapis.com/upload/storage/v1/b/"
    ++ pctEncode inPathEncodeSet (strBytes bucket) ++ "/o?uploadType=multipart"
  let queryParams := (optional.getD {}).queryString
  if queryParams = "" then uri0 else uri0 ++ "&" ++ queryParams

/-- `Object::insert_multipart`. -/
def Object.insert_multipart (bucket : String) (content : List Nat) (length : Nat)
    (metadata : Metadata) (optional : Option InsertObjectOptional) :
    Except Error (HttpRequest Multipart) :=
  match metadata.name with
  | none => .error (.InvalidLength 0 1 1024)
  | some nm =>
    match ObjectName.validate nm with
    | .error e => .error e
    | .ok _ =>
      match Multipart.wrap content length metadata with
      | .error e => .error e
      | .ok multipart =>
        .ok { method := "POST", uri := mpInsertUri bucket optional,
              headers := [("content-type", "multipart/related; boundary=tame_gcs"),
                ("content-length", toString multipart.totalLen)],
              body := multipart }

/-! ## Claim-side (specification-vocabulary) definitions

These re-state conditions in the words of the specification so claim
theorems can compare them against the embedded code. -/

/-- Spec-side: whether character `c` is allowed at position `i` of a bucket
name whose last index is `last`: lowercase ascii letter, digit, or `-`/`_`
not at either end. -/
def bucketCharOk (i last : Nat) (c : Char) : Bool :=
  isLowerOrDigit c || ((c = '-' || c = '_') && !(i = 0 || i = last))

/-- Spec-side: all characters allowed at their positions. -/
def bucketCharsOk (last : Nat) : Nat → List Char → Bool
  | _, [] => true
  | i, c :: rest => bucketCharOk i last c && bucketCharsOk last (i + 1) rest

/-- Spec-side: the full bucket-name grammar of the specification: 3–63
characters, allowed characters with no edge `-`/`_`, no `goog` start, and
neither `google` nor `g00gle` anywhere. -/
def bucketNameOk (s : String) : Bool :=
  let cs := s.data
  let n := cs.length
  3 ≤ n && n ≤ 63 && bucketCharsOk (n - 1) 0 cs
    && !listStartsWith "goog".data cs
    && !listHasSeq "google".data cs && !listHasSeq "g00gle".data cs

/-- Spec-side: ordering header `(name, value)` pairs by name only, as the
specification words the sort. -/
def nameLeB (a b : String × String) : Bool := strLeB a.1 b.1

/-- The JSON object keys `Metadata` serialization emits. -/
def Metadata.serKeys (m : Metadata) : List String :=
  m.serFields.map Prod.fst

/-! # Theorems

First the reusable lemmas about the multipart stream machine, then one
theorem (plus witness / counterexample) per claim. -/

theorem mpSuffix_length : mpSuffix.length = 13 := by decide

/-- Splitting a `take` across one loop iteration that copied `c` bytes. -/
theorem take_add_split (rem : List Nat) (c room : Nat) (hc : c ≤ room) :
    rem.take c ++ (rem.drop c).take (room - c) = rem.take room := by
  conv_rhs => rw [show room = c + (room - c) by omega]
  rw [List.take_add]

theorem readLoop_spec (fuel : Nat) :
    ∀ (m : Multipart) (room : Nat), m.WF → room + m.part.slack ≤ fuel →
      ∃ m', readLoop fuel m room = some (m.remaining.take room, m') ∧
        m'.WF ∧ m'.remaining = m.remaining.drop room ∧
        m'.pre = m.pre ∧ m'.bodyLen = m.bodyLen ∧ m'.totalLen = m.totalLen ∧
        m'.body.length ≤ m.body.length := by
  induction fuel with
  | zero =>
    intro m room _ hfuel
    exact absurd hfuel (by cases m.part <;> simp [MultipartPart.slack])
  | succ fuel ih =>
    intro m room hwf hfuel
    match room with
    | 0 =>
      exact ⟨m, by simp [readLoop], hwf, by simp, rfl, rfl, rfl, le_refl _⟩
    | room + 1 =>
      obtain ⟨body, pre, bodyLen, totalLen, position, part⟩ := m
      cases part with
      | End =>
        dsimp only [Multipart.WF, MultipartPart.slack] at hwf hfuel
        have hbody : body = [] := hwf
        have hrem : Multipart.remaining ⟨body, pre, bodyLen, totalLen, position, .End⟩ = [] := rfl
        refine ⟨⟨body, pre, bodyLen, totalLen, position, .End⟩, ?_, hwf, ?_, rfl, rfl, rfl,
          le_refl _⟩
        · simp [readLoop, hrem]
        · simp [hrem]
      | Pre =>
        dsimp only [Multipart.WF, MultipartPart.slack] at hwf hfuel
        obtain ⟨hpos, hblen⟩ := hwf
        have hfuel' : room + 1 + 4 ≤ fuel + 1 := hfuel
        have hrem : Multipart.remaining ⟨body, pre, bodyLen, totalLen, position, .Pre⟩ =
            pre.drop position ++ (body ++ mpSuffix) := by
          simp [Multipart.remaining, List.append_assoc]
        simp only [readLoop]
        set rem := Multipart.remaining ⟨body, pre, bodyLen, totalLen, position, .Pre⟩ with hremdef
        set c := min (room + 1) (pre.length - position) with hc
        have hc1 : 1 ≤ c := by simp only [hc]; omega
        have hcle : c ≤ pre.length - position := by simp only [hc]; omega
        have hcroom : c ≤ room + 1 := by simp only [hc]; omega
        have hdroplen : c ≤ (pre.drop position).length := by
          simp [List.length_drop]; omega
        have hout : (pre.drop position).take c = rem.take c := by
          rw [hrem, List.take_append_of_le_length hdroplen]
        have hdrop : rem.drop c = pre.drop (position + c) ++ (body ++ mpSuffix) := by
          rw [hrem, List.drop_append_of_le_length hdroplen, List.drop_drop]
        by_cases hadv : position + c = pre.length
        · rw [if_pos hadv]
          have hwf1 : Multipart.WF ⟨body, pre, bodyLen, totalLen, 0, .Body⟩ := by
            show 0 + body.length = bodyLen
            omega
          have hpredrop : pre.drop (position + c) = [] := by
            rw [hadv]
            exact List.drop_length pre
          have hrem1 : Multipart.remaining ⟨body, pre, bodyLen, totalLen, 0, .Body⟩ =
              rem.drop c := by
            rw [hdrop, hpredrop]
            rfl
          obtain ⟨m', hrun, hwff, hremf, hpref, hblf, htlf, hbodyf⟩ :=
            ih ⟨body, pre, bodyLen, totalLen, 0, .Body⟩ (room + 1 - c) hwf1
              (by show room + 1 - c + 3 ≤ fuel; omega)
          refine ⟨m', ?_, hwff, ?_, hpref, hblf, htlf, hbodyf⟩
          · rw [hrun, hrem1]
            simp only [Option.map_some']
            congr 2
            rw [hout]
            exact take_add_split rem c (room + 1) hcroom
          · rw [hremf, hrem1, List.drop_drop]
            congr 1
            omega
        · rw [if_neg hadv]
          have hposlt : position + c < pre.length := by omega
          have hwf1 : Multipart.WF ⟨body, pre, bodyLen, totalLen, position + c, .Pre⟩ :=
            ⟨hposlt, hblen⟩
          have hrem1 : Multipart.remaining ⟨body, pre, bodyLen, totalLen, position + c, .Pre⟩ =
              rem.drop c := by
            rw [hdrop]
            simp [Multipart.remaining, List.append_assoc]
          obtain ⟨m', hrun, hwff, hremf, hpref, hblf, htlf, hbodyf⟩ :=
            ih ⟨body, pre, bodyLen, totalLen, position + c, .Pre⟩ (room + 1 - c) hwf1
              (by show room + 1 - c + 4 ≤ fuel; omega)
          refine ⟨m', ?_, hwff, ?_, hpref, hblf, htlf, hbodyf⟩
          · rw [hrun, hrem1]
            simp only [Option.map_some']
            congr 2
            rw [hout]
            exact take_add_split rem c (room + 1) hcroom
          · rw [hremf, hrem1, List.drop_drop]
            congr 1
            omega
      | Body =>
        dsimp only [Multipart.WF, MultipartPart.slack] at hwf hfuel
        have hwfb : position + body.length = bodyLen := hwf
        have hfuel' : room + 1 + 3 ≤ fuel + 1 := hfuel
        have hrem : Multipart.remaining ⟨body, pre, bodyLen, totalLen, position, .Body⟩ =
            body ++ mpSuffix := rfl
        simp only [readLoop]
        set rem := Multipart.remaining ⟨body, pre, bodyLen, totalLen, position, .Body⟩ with hremdef
        set c := min (room + 1) body.length with hc
        have hcroom : c ≤ room + 1 := by simp only [hc]; omega
        have hcbody : c ≤ body.length := by simp only [hc]; omega
        have hguard : ¬(c = 0 ∧ position ≠ bodyLen) := by
          rintro ⟨hc0, hne⟩
          have hb0 : body.length = 0 := by simp only [hc] at hc0; omega
          omega
        rw [if_neg hguard]
        have hout : body.take c = rem.take c := by
          rw [hrem, List.take_append_of_le_length hcbody]
        have hdrop : rem.drop c = body.drop c ++ mpSuffix := by
          rw [hrem, List.drop_append_of_le_length hcbody]
        by_cases hadv : position + c = bodyLen
        · rw [if_pos hadv]
          have hfull : c = body.length := by omega
          have hwf1 : Multipart.WF ⟨body.drop c, pre, bodyLen, totalLen, 0, .Suffix⟩ := by
            show 0 < mpSuffix.length ∧ body.drop c = []
            refine ⟨by rw [mpSuffix_length]; omega, ?_⟩
            rw [hfull, List.drop_length]
          have hrem1 : Multipart.remaining ⟨body.drop c, pre, bodyLen, totalLen, 0, .Suffix⟩ =
              rem.drop c := by
            rw [hdrop, hfull, List.drop_length]
            rfl
          obtain ⟨m', hrun, hwff, hremf, hpref, hblf, htlf, hbodyf⟩ :=
            ih ⟨body.drop c, pre, bodyLen, totalLen, 0, .Suffix⟩ (room + 1 - c) hwf1
              (by show room + 1 - c + 2 ≤ fuel; omega)
          refine ⟨m', ?_, hwff, ?_, hpref, hblf, htlf, ?_⟩
          · rw [hrun, hrem1]
            simp only [Option.map_some']
            congr 2
            rw [hout]
            exact take_add_split rem c (room + 1) hcroom
          · rw [hremf, hrem1, List.drop_drop]
            congr 1
            omega
          · calc m'.body.length ≤ (body.drop c).length := hbodyf
              _ ≤ body.length := by simp
        · rw [if_neg hadv]
          have hc1 : 1 ≤ c := by
            rcases Nat.eq_zero_or_pos c with h0 | h1
            · exfalso
              have hb0 : body.length = 0 := by simp only [hc] at h0; omega
              exact hadv (by omega)
            · exact h1
          have hwf1 : Multipart.WF
              ⟨body.drop c, pre, bodyLen, totalLen, position + c, .Body⟩ := by
            show position + c + (body.drop c).length = bodyLen
            simp [List.length_drop]
            omega
          have hrem1 : Multipart.remaining
              ⟨body.drop c, pre, bodyLen, totalLen, position + c, .Body⟩ = rem.drop c := by
            rw [hdrop]
            rfl
          obtain ⟨m', hrun, hwff, hremf, hpref, hblf, htlf, hbodyf⟩ :=
            ih ⟨body.drop c, pre, bodyLen, totalLen, position + c, .Body⟩ (room + 1 - c) hwf1
              (by show room + 1 - c + 3 ≤ fuel; omega)
          refine ⟨m', ?_, hwff, ?_, hpref, hblf, htlf, ?_⟩
          · rw [hrun, hrem1]
            simp only [Option.map_some']
            congr 2
            rw [hout]
            exact take_add_split rem c (room + 1) hcroom
          · rw [hremf, hrem1, List.drop_drop]
            congr 1
            omega
          · calc m'.body.length ≤ (body.drop c).length := hbodyf
              _ ≤ body.length := by simp
      | Suffix =>
        dsimp only [Multipart.WF, MultipartPart.slack] at hwf hfuel
        obtain ⟨hpos, hbody⟩ := hwf
        have hfuel' : room + 1 + 2 ≤ fuel + 1 := hfuel
        have hrem : Multipart.remaining ⟨body, pre, bodyLen, totalLen, position, .Suffix⟩ =
            mpSuffix.drop position := rfl
        simp only [readLoop]
        set rem := Multipart.remaining ⟨body, pre, bodyLen, totalLen, position, .Suffix⟩
          with hremdef
        set c := min (room + 1) (mpSuffix.length - position) with hc
        have hc1 : 1 ≤ c := by simp only [hc]; omega
        have hcle : c ≤ mpSuffix.length - position := by simp only [hc]; omega
        have hcroom : c ≤ room + 1 := by simp only [hc]; omega
        have hout : (mpSuffix.drop position).take c = rem.take c := by
          rw [hrem]
        have hdrop : rem.drop c = mpSuffix.drop (position + c) := by
          rw [hrem, List.drop_drop]
        by_cases hadv : position + c = mpSuffix.length
        · rw [if_pos hadv]
          have hwf1 : Multipart.WF ⟨body, pre, bodyLen, totalLen, 0, .End⟩ := hbody
          have hsufdrop : mpSuffix.drop (position + c) = [] := by
            rw [hadv]
            exact List.drop_length mpSuffix
          have hrem1 : Multipart.remaining ⟨body, pre, bodyLen, totalLen, 0, .End⟩ =
              rem.drop c := by
            rw [hdrop, hsufdrop]
            rfl
          obtain ⟨m', hrun, hwff, hremf, hpref, hblf, htlf, hbodyf⟩ :=
            ih ⟨body, pre, bodyLen, totalLen, 0, .End⟩ (room + 1 - c) hwf1
              (by show room + 1 - c + 1 ≤ fuel; omega)
          refine ⟨m', ?_, hwff, ?_, hpref, hblf, htlf, hbodyf⟩
          · rw [hrun, hrem1]
            simp only [Option.map_some']
            congr 2
            rw [hout]
            exact take_add_split rem c (room + 1) hcroom
          · rw [hremf, hrem1, List.drop_drop]
            congr 1
            omega
        · rw [if_neg hadv]
          have hposlt : position + c < mpSuffix.length := by omega
          have hwf1 : Multipart.WF ⟨body, pre, bodyLen, totalLen, position + c, .Suffix⟩ :=
            ⟨hposlt, hbody⟩
          have hrem1 : Multipart.remaining
              ⟨body, pre, bodyLen, totalLen, position + c, .Suffix⟩ = rem.drop c := by
            rw [hdrop]
            rfl
          obtain ⟨m', hrun, hwff, hremf, hpref, hblf, htlf, hbodyf⟩ :=
            ih ⟨body, pre, bodyLen, totalLen, position + c, .Suffix⟩ (room + 1 - c) hwf1
              (by show room + 1 - c + 2 ≤ fuel; omega)
          refine ⟨m', ?_, hwff, ?_, hpref, hblf, htlf, hbodyf⟩
          · rw [hrun, hrem1]
            simp only [Option.map_some']
            congr 2
            rw [hout]
            exact take_add_split rem c (room + 1) hcroom
          · rw [hremf, hrem1, List.drop_drop]
            congr 1
            omega

/-- `Multipart::read` on any well-formed state: the output is the next
`room` bytes of the remaining stream, the state advances accordingly and
stays well-formed, and the inner source is only ever consumed (never
replenished). -/
theorem Multipart.read_spec (m : Multipart) (room : Nat) (hwf : m.WF) :
    ∃ m', m.read room = some (m.remaining.take room, m') ∧
      m'.WF ∧ m'.remaining = m.remaining.drop room ∧
      m'.pre = m.pre ∧ m'.bodyLen = m.bodyLen ∧ m'.totalLen = m.totalLen ∧
      m'.body.length ≤ m.body.length := by
  refine readLoop_spec (room + 4) m room hwf ?_
  have : m.part.slack ≤ 4 := by
    cases m.part <;> simp [MultipartPart.slack]
  omega

/-- Every well-formed state offers at most `bodyLen` undelivered inner
bytes. -/
theorem Multipart.WF.body_le (m : Multipart) (hwf : m.WF) :
    m.body.length ≤ m.bodyLen := by
  obtain ⟨body, pre, bodyLen, totalLen, position, part⟩ := m
  show body.length ≤ bodyLen
  cases part with
  | Pre =>
    have h : position < pre.length ∧ body.length = bodyLen := hwf
    omega
  | Body =>
    have h : position + body.length = bodyLen := hwf
    omega
  | Suffix =>
    have h : position < mpSuffix.length ∧ body = [] := hwf
    simp [h.2]
  | End =>
    have h : body = [] := hwf
    simp [h]

/-- Draining with a list of buffer sizes pulls exactly `ks.sum` bytes of
the remaining stream (or all of it, whichever is shorter). -/
theorem Multipart.drain_spec :
    ∀ (ks : List Nat) (m : Multipart), m.WF →
      ∃ mf, m.drain ks = some (m.remaining.take ks.sum, mf) ∧
        mf.WF ∧ mf.remaining = m.remaining.drop ks.sum ∧ mf.totalLen = m.totalLen := by
  intro ks
  induction ks with
  | nil =>
    intro m hwf
    exact ⟨m, by simp [Multipart.drain], hwf, by simp, rfl⟩
  | cons k ks ih =>
    intro m hwf
    obtain ⟨m1, hread, hwf1, hrem1, _, _, htl1, _⟩ := Multipart.read_spec m k hwf
    obtain ⟨mf, hdrain, hwff, hremf, htlf⟩ := ih m1 hwf1
    refine ⟨mf, ?_, hwff, ?_, htlf.trans htl1⟩
    · simp only [Multipart.drain, hread, hdrain]
      congr 2
      rw [hrem1, List.sum_cons, List.take_add]
    · rw [hremf, hrem1, List.drop_drop, List.sum_cons]

/-- `Multipart::wrap` always succeeds, with the documented initial state. -/
theorem Multipart.wrap_eq (body : List Nat) (len : Nat) (metadata : Metadata) :
    Multipart.wrap body len metadata =
      .ok { body, pre := wrapPre metadata, bodyLen := len,
            totalLen := wrapPreLen metadata + len + mpSuffix.length,
            position := 0, part := .Pre } := rfl

/-- The assembled prefix buffer has exactly the precomputed length. -/
theorem wrapPre_length (metadata : Metadata) :
    (wrapPre metadata).length = wrapPreLen metadata := by
  have h : (utf8EncodeChar '\n').length = 1 := by decide
  simp [wrapPre, wrapPreLen, strBytes]
  omega

/-- The freshly wrapped state is well-formed whenever the inner source
offers exactly the declared number of bytes. -/
theorem Multipart.wrap_WF (body : List Nat) (len : Nat) (metadata : Metadata)
    (hlen : body.length = len) (m : Multipart)
    (h : Multipart.wrap body len metadata = .ok m) : m.WF := by
  rw [Multipart.wrap_eq] at h
  cases h
  refine ⟨?_, hlen⟩
  have h1 : 0 < mpSeparator.length := by decide
  simp [wrapPre]
  omega

/-- The remaining stream of a freshly wrapped state. -/
theorem Multipart.wrap_remaining (body : List Nat) (len : Nat) (metadata : Metadata)
    (m : Multipart) (h : Multipart.wrap body len metadata = .ok m) :
    m.remaining = wrapPre metadata ++ body ++ mpSuffix := by
  rw [Multipart.wrap_eq] at h
  cases h
  simp [Multipart.remaining]

/-- `total_len()` of a freshly wrapped state counts the whole stream when
the inner source offers exactly the declared bytes. -/
theorem Multipart.wrap_totalLen (body : List Nat) (len : Nat) (metadata : Metadata)
    (hlen : body.length = len) (m : Multipart)
    (h : Multipart.wrap body len metadata = .ok m) :
    m.totalLen = (wrapPre metadata ++ body ++ mpSuffix).length := by
  rw [Multipart.wrap_eq] at h
  cases h
  simp only [List.length_append, wrapPre_length]
  omega

/-- `strBytes` distributes over string concatenation. -/
theorem strBytes_append (a b : String) : strBytes (a ++ b) = strBytes a ++ strBytes b := by
  simp [strBytes, String.data_append]

/-- C6 (amended): provided the inner body offers exactly `body_length`
bytes, every read succeeds, drains Prefix, then the inner body, then the
Suffix in stream order, preserves well-formedness, and the bytes still
offered by the inner source never exceed `body_length` — so the total taken
from the inner body never exceeds `body_length`. -/
theorem multipart_read_exact_source (m : Multipart) (room : Nat) (hwf : m.WF) :
    m.body.length ≤ m.bodyLen ∧
    ∃ m', m.read room = some (m.remaining.take room, m') ∧ m'.WF ∧
      m'.remaining = m.remaining.drop room ∧ m'.body.length ≤ m.body.length := by
  obtain ⟨m', hread, hwf', hrem', _, _, _, hbody'⟩ := Multipart.read_spec m room hwf
  exact ⟨Multipart.WF.body_le m hwf, m', hread, hwf', hrem', hbody'⟩

/-- Witness for C6 (amended) at a concrete well-formed state. -/
theorem multipart_read_exact_source_witness :
    (Multipart.mk [72] (wrapPre Metadata.empty) 1
        (wrapPreLen Metadata.empty + 1 + mpSuffix.length) 0 .Pre).body.length ≤ 1 ∧
    ∃ m', (Multipart.mk [72] (wrapPre Metadata.empty) 1
        (wrapPreLen Metadata.empty + 1 + mpSuffix.length) 0 .Pre).read 5 =
        some ((Multipart.mk [72] (wrapPre Metadata.empty) 1
          (wrapPreLen Metadata.empty + 1 + mpSuffix.length) 0 .Pre).remaining.take 5, m') ∧
      m'.WF ∧
      m'.remaining = (Multipart.mk [72] (wrapPre Metadata.empty) 1
        (wrapPreLen Metadata.empty + 1 + mpSuffix.length) 0 .Pre).remaining.drop 5 ∧
      m'.body.length ≤ 1 :=
  multipart_read_exact_source
    (Multipart.mk [72] (wrapPre Metadata.empty) 1
      (wrapPreLen Metadata.empty + 1 + mpSuffix.length) 0 .Pre) 5
    (by show 0 < (wrapPre Metadata.empty).length ∧ ([72] : List Nat).length = 1; decide)

/-- C6 (counterexample): with a declared `body_length` of 0 but an inner
source offering one byte, a single large-enough read pulls that byte out of
the inner body — the code passes the whole remaining buffer to
`body.read` without clamping to `body_len`, so more than `body_length`
bytes are taken, contradicting the claim. -/
theorem multipart_read_overreads_counterexample :
    (Multipart.wrap [65] 0 Metadata.empty).toOption.bind
        (fun m => (m.read 113).map (fun r => (m.bodyLen, m.body.length - r.2.body.length)))
      = some (0, 1) := by decide

/-- C7: when the inner body yields exactly the declared `body_length`
bytes, consuming the `Multipart` with any sequence of buffer sizes yields
exactly the next `ks.sum` bytes of `prefix ++ body ++ suffix`; hence any
two chunkings of equal total (in particular 1-byte-at-a-time versus one
big buffer) produce byte-for-byte the same output, `total_len()` equals
the number of bytes the stream yields, and once that many bytes are
consumed every further read yields zero bytes. -/
theorem multipart_chunking_invariance (metadata : Metadata) (body : List Nat)
    (len : Nat) (hlen : body.length = len) (m : Multipart)
    (hwrap : Multipart.wrap body len metadata = .ok m) :
    m.totalLen = (wrapPre metadata ++ body ++ mpSuffix).length ∧
    (∀ ks : List Nat, ∃ mf, m.drain ks =
        some ((wrapPre metadata ++ body ++ mpSuffix).take ks.sum, mf)) ∧
    (∀ ks1 ks2 : List Nat, ks1.sum = ks2.sum →
        (m.drain ks1).map Prod.fst = (m.drain ks2).map Prod.fst) ∧
    (∀ ks : List Nat, m.totalLen ≤ ks.sum →
        ∃ mf, m.drain ks = some (wrapPre metadata ++ body ++ mpSuffix, mf) ∧
          ∀ room, ∃ mf2, mf.read room = some ([], mf2)) := by
  have hwf : m.WF := Multipart.wrap_WF body len metadata hlen m hwrap
  have hrem : m.remaining = wrapPre metadata ++ body ++ mpSuffix :=
    Multipart.wrap_remaining body len metadata m hwrap
  have htot : m.totalLen = (wrapPre metadata ++ body ++ mpSuffix).length :=
    Multipart.wrap_totalLen body len metadata hlen m hwrap
  refine ⟨htot, ?_, ?_, ?_⟩
  · intro ks
    obtain ⟨mf, hdrain, _, _, _⟩ := Multipart.drain_spec ks m hwf
    exact ⟨mf, by rw [hdrain, hrem]⟩
  · intro ks1 ks2 hsum
    obtain ⟨mf1, hd1, _, _, _⟩ := Multipart.drain_spec ks1 m hwf
    obtain ⟨mf2, hd2, _, _, _⟩ := Multipart.drain_spec ks2 m hwf
    rw [hd1, hd2]
    simp [hsum]
  · intro ks hge
    obtain ⟨mf, hdrain, hwff, hremf, _⟩ := Multipart.drain_spec ks m hwf
    have hfull : m.remaining.take ks.sum = wrapPre metadata ++ body ++ mpSuffix := by
      rw [hrem]
      refine List.take_of_length_le ?_
      rw [← htot]
      exact hge
    have hlen3 : (wrapPre metadata ++ body ++ mpSuffix).length ≤ ks.sum := by
      rw [← htot]
      exact hge
    have hempty : mf.remaining = [] := by
      rw [hremf, hrem]
      exact List.drop_eq_nil_of_le hlen3
    refine ⟨mf, by rw [hdrain, hfull], ?_⟩
    intro room
    obtain ⟨mf2, hread, _, _, _, _, _, _⟩ := Multipart.read_spec mf room hwff
    exact ⟨mf2, by rw [hread, hempty, List.take_nil]⟩

/-- Witness for C7 at a concrete metadata and two-byte body. -/
theorem multipart_chunking_invariance_witness :
    ∃ m, Multipart.wrap [104, 105] 2 Metadata.empty = .ok m ∧
      (∀ ks1 ks2 : List Nat, ks1.sum = ks2.sum →
        (m.drain ks1).map Prod.fst = (m.drain ks2).map Prod.fst) := by
  refine ⟨_, rfl, ?_⟩
  exact (multipart_chunking_invariance Metadata.empty [104, 105] 2 rfl _ rfl).2.2.1

/-- `Object::insert_multipart` on a valid name: the exact request
produced. -/
theorem insert_multipart_eq (metadata : Metadata) (body : List Nat)
    (len : Nat) (bucket : String) (optional : Option InsertObjectOptional)
    (nm : String) (hname : metadata.name = some nm)
    (hvalid : ObjectName.validate nm = .ok ()) :
    Object.insert_multipart bucket body len metadata optional =
      .ok (HttpRequest.mk "POST" (mpInsertUri bucket optional)
        [("content-type", "multipart/related; boundary=tame_gcs"),
          ("content-length", toString (wrapPreLen metadata + len + mpSuffix.length))]
        (Multipart.mk body (wrapPre metadata) len
          (wrapPreLen metadata + len + mpSuffix.length) 0 .Pre)) := by
  unfold Object.insert_multipart
  rw [hname]
  dsimp only
  rw [hvalid]
  rfl

set_option maxRecDepth 8000 in
/-- C1: for any metadata (with a present, valid object name, which
`insert_multipart` requires), inner body and declared length,
`Object::insert_multipart` / `Multipart::wrap` produce a `POST` request
whose `Content-Type` header is `multipart/related; boundary=tame_gcs` and
whose `Content-Length` header is `total_len()`; the body byte stream is
exactly prefix, inner bytes, then suffix with bare `\n` separators, and
`total_len()` is prefix length + declared body length + suffix length. -/
theorem insert_multipart_wire_format (metadata : Metadata) (body : List Nat)
    (len : Nat) (bucket : String) (optional : Option InsertObjectOptional)
    (nm : String) (hname : metadata.name = some nm)
    (hvalid : ObjectName.validate nm = .ok ()) (hlen : body.length = len) :
    ∃ req : HttpRequest Multipart,
      Object.insert_multipart bucket body len metadata optional = .ok req ∧
      req.method = "POST" ∧
      req.headers = [("content-type", "multipart/related; boundary=tame_gcs"),
        ("content-length", toString req.body.totalLen)] ∧
      req.body.pre = strBytes ("--tame_gcs\n"
        ++ "content-type: application/json; charset=utf-8\n\n"
        ++ metadata.toJsonString ++ "\n" ++ "--tame_gcs\n" ++ "content-type: "
        ++ (metadata.contentType.getD "application/octet-stream") ++ "\n\n") ∧
      req.body.totalLen = req.body.pre.length + len + (strBytes "\n--tame_gcs--").length ∧
      (∃ mf, req.body.drain [req.body.totalLen] =
        some (req.body.pre ++ body ++ strBytes "\n--tame_gcs--", mf)) := by
  have hpre : wrapPre metadata = strBytes ("--tame_gcs\n"
      ++ "content-type: application/json; charset=utf-8\n\n"
      ++ metadata.toJsonString ++ "\n" ++ "--tame_gcs\n" ++ "content-type: "
      ++ (metadata.contentType.getD "application/octet-stream") ++ "\n\n") := by
    simp only [strBytes_append]
    rfl
  rw [insert_multipart_eq metadata body len bucket optional nm hname hvalid]
  refine ⟨_, rfl, rfl, rfl, hpre, ?_, ?_⟩
  · show wrapPreLen metadata + len + mpSuffix.length = (wrapPre metadata).length + len + _
    rw [wrapPre_length]
    rfl
  · have hwrap : Multipart.wrap body len metadata =
        .ok (Multipart.mk body (wrapPre metadata) len
          (wrapPreLen metadata + len + mpSuffix.length) 0 .Pre) := rfl
    obtain ⟨htot, hdrain, _, _⟩ :=
      multipart_chunking_invariance metadata body len hlen _ hwrap
    obtain ⟨mf, hd⟩ := hdrain [wrapPreLen metadata + len + mpSuffix.length]
    refine ⟨mf, ?_⟩
    show Multipart.drain _ [wrapPreLen metadata + len + mpSuffix.length] = _
    rw [hd]
    congr 1
    congr 1
    show (wrapPre metadata ++ body ++ mpSuffix).take
        ([wrapPreLen metadata + len + mpSuffix.length].sum) = _
    rw [List.sum_cons, List.sum_nil, Nat.add_zero]
    refine List.take_of_length_le ?_
    rw [← htot]

set_option maxRecDepth 8000 in
/-- Witness for C1 at a concrete metadata, bucket and one-byte body. -/
theorem insert_multipart_wire_format_witness :
    ∃ req : HttpRequest Multipart,
      Object.insert_multipart "bucket" [104] 1 { name := some "x" } none = .ok req ∧
      req.method = "POST" ∧
      req.headers = [("content-type", "multipart/related; boundary=tame_gcs"),
        ("content-length", toString req.body.totalLen)] ∧
      req.body.pre = strBytes ("--tame_gcs\n"
        ++ "content-type: application/json; charset=utf-8\n\n"
        ++ (Metadata.toJsonString { name := some "x" }) ++ "\n" ++ "--tame_gcs\n"
        ++ "content-type: " ++ "application/octet-stream" ++ "\n\n") ∧
      req.body.totalLen = req.body.pre.length + 1 + (strBytes "\n--tame_gcs--").length ∧
      (∃ mf, req.body.drain [req.body.totalLen] =
        some (req.body.pre ++ [104] ++ strBytes "\n--tame_gcs--", mf)) :=
  insert_multipart_wire_format { name := some "x" } [104] 1 "bucket" none "x"
    rfl rfl rfl

/-- An ASCII-uppercase character is allowed nowhere in a bucket name. -/
theorem bucketCharOk_false_of_upper (i last : Nat) (c : Char)
    (h : isAsciiUpper c = true) : bucketCharOk i last c = false := by
  have h1 : isLowerOrDigit c = false := by
    simp only [isAsciiUpper, Bool.and_eq_true, decide_eq_true_eq] at h
    simp only [isLowerOrDigit, Bool.or_eq_false_iff, Bool.and_eq_false_iff,
      decide_eq_false_iff_not]
    omega
  have h2 : c ≠ '-' := by
    rintro rfl
    exact absurd h (by decide)
  have h3 : c ≠ '_' := by
    rintro rfl
    exact absurd h (by decide)
  simp [bucketCharOk, h1, h2, h3]

/-- A dash or underscore at an edge position is not allowed. -/
theorem bucketCharOk_false_of_edge (i last : Nat) (c : Char)
    (hl : isLowerOrDigit c = false) (hedge : i = 0 ∨ i = last) :
    bucketCharOk i last c = false := by
  rcases hedge with h | h <;> simp [bucketCharOk, hl, h]

/-- A dash or underscore away from the edges is allowed. -/
theorem bucketCharOk_true_of_dash (i last : Nat) (c : Char)
    (hd : c = '-' ∨ c = '_') (hedge : ¬(i = 0 ∨ i = last)) :
    bucketCharOk i last c = true := by
  simp only [bucketCharOk]
  refine Bool.or_eq_true_iff.mpr (Or.inr ?_)
  simp only [Bool.and_eq_true]
  constructor
  · rcases hd with h | h <;> simp [h]
  · simp only [Bool.not_eq_true', Bool.or_eq_false_iff, decide_eq_false_iff_not]
    push_neg at hedge
    exact hedge

/-- A character that is no lowercase letter, digit, dash or underscore is
not allowed. -/
theorem bucketCharOk_false_of_other (i last : Nat) (c : Char)
    (hl : isLowerOrDigit c = false) (h2 : c ≠ '-') (h3 : c ≠ '_') :
    bucketCharOk i last c = false := by
  simp [bucketCharOk, hl, h2, h3]

/-- The character scan returns `none` exactly when every character is
allowed at its position. -/
theorem bucketCharScan_none_iff (last : Nat) :
    ∀ (cs : List Char) (i : Nat),
      bucketCharScan last i cs = none ↔ bucketCharsOk last i cs = true := by
  intro cs
  induction cs with
  | nil => intro i; simp [bucketCharScan, bucketCharsOk]
  | cons c rest ih =>
    intro i
    simp only [bucketCharScan, bucketCharsOk]
    by_cases hu : isAsciiUpper c = true
    · rw [if_pos hu]
      simp [bucketCharOk_false_of_upper i last c hu]
    · rw [if_neg hu]
      by_cases hl : isLowerOrDigit c = true
      · rw [if_pos hl]
        have hok : bucketCharOk i last c = true := by simp [bucketCharOk, hl]
        simp [hok, ih]
      · rw [if_neg hl]
        by_cases hd : c = '-' ∨ c = '_'
        · rw [if_pos hd]
          by_cases hedge : i = 0 ∨ i = last
          · rw [if_pos hedge]
            simp [bucketCharOk_false_of_edge i last c (by simpa using hl) hedge]
          · rw [if_neg hedge]
            simp [bucketCharOk_true_of_dash i last c hd hedge, ih]
        · rw [if_neg hd]
          push_neg at hd
          simp [bucketCharOk_false_of_other i last c (by simpa using hl) hd.1 hd.2]

/-- When the scan reports `(j, c)`, that offset holds `c`, `c` is rejected
there, and every earlier character is allowed: the scan stops at the first
offending character. -/
theorem bucketCharScan_some_spec (last : Nat) :
    ∀ (cs : List Char) (i j : Nat) (c : Char),
      bucketCharScan last i cs = some (j, c) →
      i ≤ j ∧ cs.get? (j - i) = some c ∧ bucketCharOk j last c = false ∧
        ∀ k ck, i ≤ k → k < j → cs.get? (k - i) = some ck →
          bucketCharOk k last ck = true := by
  intro cs
  induction cs with
  | nil => intro i j c h; simp [bucketCharScan] at h
  | cons c0 rest ih =>
    intro i j c h
    simp only [bucketCharScan] at h
    by_cases hu : isAsciiUpper c0 = true
    · rw [if_pos hu] at h
      obtain ⟨hji, hcc⟩ : i = j ∧ c0 = c := by
        simp only [Option.some.injEq, Prod.mk.injEq] at h
        exact h
      refine ⟨by omega, ?_, ?_, ?_⟩
      · rw [← hji]
        simp [hcc]
      · rw [← hcc]
        exact bucketCharOk_false_of_upper j last c0 hu
      · intro k ck hik hkj
        omega
    · rw [if_neg hu] at h
      by_cases hl : isLowerOrDigit c0 = true
      · rw [if_pos hl] at h
        obtain ⟨hij, hget, hbad, hall⟩ := ih (i + 1) j c h
        have hok : bucketCharOk i last c0 = true := by simp [bucketCharOk, hl]
        refine ⟨by omega, ?_, hbad, ?_⟩
        · have he : j - i = (j - (i + 1)) + 1 := by omega
          rw [he]
          simpa using hget
        · intro k ck hik hkj hgetk
          rcases Nat.eq_or_lt_of_le hik with heq | hlt
          · rw [← heq] at hgetk
            simp at hgetk
            rw [← heq, ← hgetk]
            exact hok
          · have hki : k - i = (k - (i + 1)) + 1 := by omega
            rw [hki] at hgetk
            exact hall k ck (by omega) hkj (by simpa using hgetk)
      · rw [if_neg hl] at h
        by_cases hd : c0 = '-' ∨ c0 = '_'
        · rw [if_pos hd] at h
          by_cases hedge : i = 0 ∨ i = last
          · rw [if_pos hedge] at h
            obtain ⟨hji, hcc⟩ : i = j ∧ c0 = c := by
              simp only [Option.some.injEq, Prod.mk.injEq] at h
              exact h
            refine ⟨by omega, ?_, ?_, ?_⟩
            · rw [← hji]
              simp [hcc]
            · rw [← hcc, ← hji]
              exact bucketCharOk_false_of_edge i last c0 (by simpa using hl) hedge
            · intro k ck hik hkj
              omega
          · rw [if_neg hedge] at h
            obtain ⟨hij, hget, hbad, hall⟩ := ih (i + 1) j c h
            have hok : bucketCharOk i last c0 = true :=
              bucketCharOk_true_of_dash i last c0 hd hedge
            refine ⟨by omega, ?_, hbad, ?_⟩
            · have he : j - i = (j - (i + 1)) + 1 := by omega
              rw [he]
              simpa using hget
            · intro k ck hik hkj hgetk
              rcases Nat.eq_or_lt_of_le hik with heq | hlt
              · rw [← heq] at hgetk
                simp at hgetk
                rw [← heq, ← hgetk]
                exact hok
              · have hki : k - i = (k - (i + 1)) + 1 := by omega
                rw [hki] at hgetk
                exact hall k ck (by omega) hkj (by simpa using hgetk)
        · rw [if_neg hd] at h
          push_neg at hd
          obtain ⟨hji, hcc⟩ : i = j ∧ c0 = c := by
            simp only [Option.some.injEq, Prod.mk.injEq] at h
            exact h
          refine ⟨by omega, ?_, ?_, ?_⟩
          · rw [← hji]
            simp [hcc]
          · rw [← hcc]
            exact bucketCharOk_false_of_other j last c0 (by simpa using hl) hd.1 hd.2
          · intro k ck hik hkj
            omega

/-- `BucketName::validate` succeeds exactly when the length is in range,
the scan finds no offending character, and the prefix/sequence checks
pass. -/
theorem bucket_validate_ok_iff (s : String) :
    BucketName.validate s = .ok () ↔
      (3 ≤ s.data.length ∧ s.data.length ≤ 63) ∧
      bucketCharScan (s.data.length - 1) 0 s.data = none ∧
      listStartsWith "goog".data s.data = false ∧
      listHasSeq "google".data s.data = false ∧
      listHasSeq "g00gle".data s.data = false := by
  simp only [BucketName.validate]
  by_cases hcount : 3 ≤ s.data.length ∧ s.data.length ≤ 63
  · rw [if_pos hcount]
    rcases hscan : bucketCharScan (s.data.length - 1) 0 s.data with _ | ⟨j, c⟩
    · by_cases hgoog : listStartsWith "goog".data s.data = true
      · simp only [if_pos hgoog]
        constructor
        · intro h
          cases h
        · rintro ⟨_, _, hg, _⟩
          rw [hgoog] at hg
          cases hg
      · simp only [if_neg hgoog]
        by_cases hseq : (listHasSeq "google".data s.data
            || listHasSeq "g00gle".data s.data) = true
        · rw [if_pos hseq]
          constructor
          · intro h
            cases h
          · rintro ⟨_, _, _, h1, h2⟩
            rw [h1, h2] at hseq
            cases hseq
        · rw [if_neg hseq]
          rw [Bool.or_eq_true_iff] at hseq
          push_neg at hseq
          constructor
          · intro _
            exact ⟨hcount, by trivial, Bool.eq_false_iff.mpr hgoog,
              Bool.eq_false_iff.mpr hseq.1, Bool.eq_false_iff.mpr hseq.2⟩
          · intro _
            rfl
    · constructor
      · intro h
        cases h
      · rintro ⟨_, hn, _⟩
        cases hn
  · rw [if_neg hcount]
    constructor
    · intro h
      cases h
    · rintro ⟨h1, _⟩
      exact absurd h1 hcount

/-- C8 (amended): construction succeeds exactly on the claimed grammar,
and when it fails because of a rejected character the error reports the
first rejected character, carrying its offset and the offending
character (it does not enumerate later rejected characters). -/
theorem bucket_validation_grammar (s : String) :
    (BucketName.validate s = .ok () ↔ bucketNameOk s = true) ∧
    (∀ i c, BucketName.validate s = .error (.InvalidCharacter i c) →
      s.data.get? i = some c ∧ bucketCharOk i (s.data.length - 1) c = false ∧
      ∀ j cj, j < i → s.data.get? j = some cj →
        bucketCharOk j (s.data.length - 1) cj = true) := by
  constructor
  · rw [bucket_validate_ok_iff, bucketCharScan_none_iff]
    simp only [bucketNameOk, Bool.and_eq_true, decide_eq_true_eq,
      Bool.not_eq_true', and_assoc]
  · intro i c herr
    simp only [BucketName.validate] at herr
    by_cases hcount : 3 ≤ s.data.length ∧ s.data.length ≤ 63
    · rw [if_pos hcount] at herr
      rcases hscan : bucketCharScan (s.data.length - 1) 0 s.data with _ | ⟨j, c'⟩
      · rw [hscan] at herr
        by_cases hgoog : listStartsWith "goog".data s.data = true
        · simp only [if_pos hgoog] at herr
          cases herr
        · simp only [if_neg hgoog] at herr
          by_cases hseq : (listHasSeq "google".data s.data
              || listHasSeq "g00gle".data s.data) = true
          · rw [if_pos hseq] at herr
            cases herr
          · rw [if_neg hseq] at herr
            cases herr
      · rw [hscan] at herr
        obtain ⟨hji, hcc⟩ : j = i ∧ c' = c := by
          simp only [Except.error.injEq, Error.InvalidCharacter.injEq] at herr
          exact herr
        rw [hji, hcc] at hscan
        obtain ⟨_, hget, hbad, hall⟩ :=
          bucketCharScan_some_spec (s.data.length - 1) s.data 0 i c hscan
        refine ⟨by simpa using hget, hbad, ?_⟩
        intro k ck hk hgetk
        exact hall k ck (Nat.zero_le _) hk (by simpa using hgetk)
    · rw [if_neg hcount] at herr
      cases herr

/-- Witness for C8 (amended): the success iff at a valid name, and the
first-offender guarantee discharged at `"ab$de"`. -/
theorem bucket_validation_grammar_witness :
    (BucketName.validate "buck-et_1" = .ok () ↔ bucketNameOk "buck-et_1" = true) ∧
    ("ab$de".data.get? 2 = some '$' ∧ bucketCharOk 2 4 '$' = false) := by
  constructor
  · exact (bucket_validation_grammar "buck-et_1").1
  · have h := (bucket_validation_grammar "ab$de").2 2 '$' rfl
    exact ⟨h.1, h.2.1⟩

/-- C8 (counterexample): `"ab$%e"` has rejected characters at offsets 2
and 3, but the error carries only the first of them — the `Error` variant
has no room for more than one `(offset, char)` pair, so validation does not
enumerate every rejected character. -/
theorem bucket_validation_single_error_counterexample :
    BucketName.validate "ab$%e" = .error (.InvalidCharacter 2 '$') ∧
    bucketCharOk 3 4 '%' = false := ⟨rfl, by decide⟩

/-- `contains` distributes over append. -/
theorem containsAppend (l1 l2 : List String) (a : String) :
    (l1 ++ l2).contains a = (l1.contains a || l2.contains a) := by
  induction l1 with
  | nil => simp
  | cons x xs ih => simp [List.contains_cons, ih, Bool.or_assoc]

/-- `decide` and `==` agree on strings. -/
theorem string_decide_eq_beq (a b : String) : decide (a = b) = (a == b) := by
  by_cases h : a = b
  · subst h
    simp
  · simp [h, beq_eq_false_iff_ne]

/-- Key membership for one optional string field. -/
theorem optStrField_key_contains (key a : String) (o : Option String) :
    ((optStrField key o).map Prod.fst).contains a = (o.isSome && (a == key)) := by
  cases o <;> simp [optStrField, List.contains_cons, string_decide_eq_beq]

/-- Key membership for the storage-class field. -/
theorem storageClassField_key_contains (a : String) (o : Option StorageClass) :
    ((storageClassField o).map Prod.fst).contains a = (o.isSome && (a == "storageClass")) := by
  cases o <;> simp [storageClassField, List.contains_cons, string_decide_eq_beq]

/-- Key membership for the user-metadata field. -/
theorem userMetadataField_key_contains (a : String) (o : Option (List (String × String))) :
    ((userMetadataField o).map Prod.fst).contains a = (o.isSome && (a == "metadata")) := by
  cases o <;> simp [userMetadataField, List.contains_cons, string_decide_eq_beq]

/-- C9: serializing any `Metadata` never emits the server-only fields —
`id`, `selfLink`, `bucket`, `generation`, `metageneration`, `timeCreated`,
`updated`, `timeStorageClassUpdated`, `size`, `mediaLink`, `etag` — no
matter whether they are set, and each writable field appears exactly when
it is set. -/
theorem metadata_serialization_partition (m : Metadata) :
    m.serKeys.contains "id" = false ∧
    m.serKeys.contains "selfLink" = false ∧
    m.serKeys.contains "bucket" = false ∧
    m.serKeys.contains "generation" = false ∧
    m.serKeys.contains "metageneration" = false ∧
    m.serKeys.contains "timeCreated" = false ∧
    m.serKeys.contains "updated" = false ∧
    m.serKeys.contains "timeStorageClassUpdated" = false ∧
    m.serKeys.contains "size" = false ∧
    m.serKeys.contains "mediaLink" = false ∧
    m.serKeys.contains "etag" = false ∧
    m.serKeys.contains "name" = m.name.isSome ∧
    m.serKeys.contains "contentType" = m.contentType.isSome ∧
    m.serKeys.contains "contentDisposition" = m.contentDisposition.isSome ∧
    m.serKeys.contains "contentEncoding" = m.contentEncoding.isSome ∧
    m.serKeys.contains "storageClass" = m.storageClass.isSome ∧
    m.serKeys.contains "md5Hash" = m.md5Hash.isSome ∧
    m.serKeys.contains "contentLanguage" = m.contentLanguage.isSome ∧
    m.serKeys.contains "crc32c" = m.crc32c.isSome ∧
    m.serKeys.contains "metadata" = m.metadata.isSome := by
  simp only [Metadata.serKeys, Metadata.serFields, List.map_append, containsAppend,
    optStrField_key_contains, storageClassField_key_contains,
    userMetadataField_key_contains]
  refine ⟨?_, ?_, ?_, ?_, ?_, ?_, ?_, ?_, ?_, ?_, ?_, ?_, ?_, ?_, ?_, ?_, ?_, ?_, ?_, ?_⟩
    <;> simp

/-- C10: `Object::insert_multipart` builds no request when the metadata
has no name (returning `InvalidLength {len: 0, min: 1, max: 1024}`) or when
the contained name fails object-name validation (returning that validation
error); on success the produced request's URI is `mpInsertUri bucket
optional` — a function of the bucket and optional parameters only — so the
object name enters the request solely through the metadata (serialized
into the multipart prefix). -/
theorem insert_multipart_name_guard (bucket : String) (content : List Nat)
    (length : Nat) (metadata : Metadata) (optional : Option InsertObjectOptional) :
    (metadata.name = none →
      Object.insert_multipart bucket content length metadata optional =
        .error (.InvalidLength 0 1 1024)) ∧
    (∀ nm e, metadata.name = some nm → ObjectName.validate nm = .error e →
      Object.insert_multipart bucket content length metadata optional = .error e) ∧
    (∀ nm, metadata.name = some nm → ObjectName.validate nm = .ok () →
      Object.insert_multipart bucket content length metadata optional =
        .ok (HttpRequest.mk "POST" (mpInsertUri bucket optional)
          [("content-type", "multipart/related; boundary=tame_gcs"),
            ("content-length", toString (wrapPreLen metadata + length + mpSuffix.length))]
          (Multipart.mk content (wrapPre metadata) length
            (wrapPreLen metadata + length + mpSuffix.length) 0 .Pre))) := by
  refine ⟨?_, ?_, ?_⟩
  · intro hnone
    unfold Object.insert_multipart
    rw [hnone]
  · intro nm e hname herr
    unfold Object.insert_multipart
    rw [hname]
    dsimp only
    rw [herr]
  · intro nm hname hvalid
    exact insert_multipart_eq metadata content length bucket optional nm hname hvalid

/-- Witness for C10: the three guard outcomes at concrete metadata values
(absent name, the invalid name `"."`, and the valid name `"x"`). -/
theorem insert_multipart_name_guard_witness :
    Object.insert_multipart "bucket" [104] 1 Metadata.empty none =
      .error (.InvalidLength 0 1 1024) ∧
    Object.insert_multipart "bucket" [104] 1 { name := some "." } none =
      .error (.InvalidPrefix ".") ∧
    Object.insert_multipart "bucket" [104] 1 { name := some "x" } none =
      .ok (HttpRequest.mk "POST" (mpInsertUri "bucket" none)
        [("content-type", "multipart/related; boundary=tame_gcs"),
          ("content-length", toString (wrapPreLen { name := some "x" } + 1 + mpSuffix.length))]
        (Multipart.mk [104] (wrapPre { name := some "x" }) 1
          (wrapPreLen { name := some "x" } + 1 + mpSuffix.length) 0 .Pre)) :=
  ⟨(insert_multipart_name_guard "bucket" [104] 1 Metadata.empty none).1 rfl,
    (insert_multipart_name_guard "bucket" [104] 1 { name := some "." } none).2.1
      "." (.InvalidPrefix ".") rfl rfl,
    (insert_multipart_name_guard "bucket" [104] 1 { name := some "x" } none).2.2
      "x" rfl rfl⟩

/-- Lexicographic `≤` on character lists is reflexive. -/
theorem listLeB_refl : ∀ l : List Char, listLeB l l = true := by
  intro l
  induction l with
  | nil => rfl
  | cons x xs ih => simp [listLeB, ih]

/-- Lexicographic `≤` on strings is reflexive. -/
theorem strLeB_refl (a : String) : strLeB a a = true := listLeB_refl a.data

/-- Membership in an `insertSorted` result. -/
theorem mem_insertSorted {α : Type} (le : α → α → Bool) (x y : α) :
    ∀ acc, y ∈ insertSorted le x acc ↔ y = x ∨ y ∈ acc := by
  intro acc
  induction acc with
  | nil => simp [insertSorted]
  | cons z zs ih =>
    simp only [insertSorted]
    by_cases h : le z x = true
    · rw [if_pos h]
      simp only [List.mem_cons, ih]
      tauto
    · rw [if_neg h]
      simp [List.mem_cons]

/-- Insertion position agrees for two orders that agree on the elements
involved. -/
theorem insertSorted_congr {α : Type} (le1 le2 : α → α → Bool) (x : α) :
    ∀ acc, (∀ y ∈ acc, le1 y x = le2 y x) →
      insertSorted le1 x acc = insertSorted le2 x acc := by
  intro acc
  induction acc with
  | nil => intro _; rfl
  | cons z zs ih =>
    intro h
    simp only [insertSorted]
    rw [h z (by simp)]
    by_cases h2 : le2 z x = true
    · rw [if_pos h2, if_pos h2, ih (fun y hy => h y (by simp [hy]))]
    · rw [if_neg h2, if_neg h2]

/-- The stable sort is determined by the order's behaviour on the list's
own elements. -/
theorem stableSort_congr_aux {α : Type} (le1 le2 : α → α → Bool) :
    ∀ (l acc : List α),
      (∀ a, (a ∈ l ∨ a ∈ acc) → ∀ b, (b ∈ l ∨ b ∈ acc) → le1 a b = le2 a b) →
      List.foldl (fun acc x => insertSorted le1 x acc) acc l =
        List.foldl (fun acc x => insertSorted le2 x acc) acc l := by
  intro l
  induction l with
  | nil => intro acc _; rfl
  | cons x xs ih =>
    intro acc h
    simp only [List.foldl_cons]
    rw [insertSorted_congr le1 le2 x acc
      (fun y hy => h y (Or.inr hy) x (Or.inl (by simp)))]
    refine ih (insertSorted le2 x acc) ?_
    intro a ha b hb
    have hmem : ∀ c, (c ∈ xs ∨ c ∈ insertSorted le2 x acc) →
        (c ∈ x :: xs ∨ c ∈ acc) := by
      intro c hc
      rcases hc with hc | hc
      · exact Or.inl (by simp [hc])
      · rcases (mem_insertSorted le2 x c acc).mp hc with rfl | hc
        · exact Or.inl (by simp)
        · exact Or.inr hc
    exact h a (hmem a ha) b (hmem b hb)

/-- `stableSort` congruence. -/
theorem stableSort_congr {α : Type} (le1 le2 : α → α → Bool) (l : List α)
    (h : ∀ a ∈ l, ∀ b ∈ l, le1 a b = le2 a b) :
    stableSort le1 l = stableSort le2 l := by
  refine stableSort_congr_aux le1 le2 l [] ?_
  intro a ha b hb
  rcases ha with ha | ha
  · rcases hb with hb | hb
    · exact h a ha b hb
    · cases hb
  · cases ha

/-- With unique header names (same name implies same aggregated value, as
in an `http::HeaderMap`), sorting the pairs equals sorting by name only —
the wording of the specification. -/
theorem sortPairs_eq_sortByName (hdrs0 : List (String × String))
    (huniq : ∀ x ∈ hdrs0, ∀ y ∈ hdrs0, x.1 = y.1 → x.2 = y.2) :
    stableSort pairLeB hdrs0 = stableSort nameLeB hdrs0 := by
  refine stableSort_congr pairLeB nameLeB hdrs0 ?_
  intro a ha b hb
  simp only [pairLeB, nameLeB]
  by_cases h : a.1 = b.1
  · rw [if_pos h, huniq a ha b hb h, h, strLeB_refl, strLeB_refl]
  · rw [if_neg h]

/-- The only error `joinHeaderValues` produces is `OpaqueHeaderValue`. -/
theorem joinHeaderValues_error :
    ∀ (vs : List (List Nat)) (e : Error), joinHeaderValues vs = .error e →
      ∃ v, e = .OpaqueHeaderValue v := by
  intro vs
  induction vs with
  | nil => intro e h; cases h
  | cons v rest ih =>
    intro e h
    simp only [joinHeaderValues] at h
    rcases hts : headerToStr v with _ | s
    · rw [hts] at h
      exact ⟨v, by cases h; rfl⟩
    · rw [hts] at h
      rcases hj : joinHeaderValues rest with e' | parts
      · rw [hj] at h
        have h2 : (Except.error e' : Except Error (List String)) = Except.error e := h
        have he : e' = e := by simpa using h2
        obtain ⟨v, hv⟩ := ih e' hj
        exact ⟨v, by rw [← he]; exact hv⟩
      · rw [hj] at h
        simp only [Except.map_ok] at h
        cases h

/-- The only error `collectHeaders` produces is `OpaqueHeaderValue`. -/
theorem collectHeaders_error :
    ∀ (hs : List (String × List (List Nat))) (e : Error),
      collectHeaders hs = .error e → ∃ v, e = .OpaqueHeaderValue v := by
  intro hs
  induction hs with
  | nil => intro e h; cases h
  | cons kv rest ih =>
    intro e h
    simp only [collectHeaders] at h
    rcases hj : joinHeaderValues kv.2 with e' | parts
    · rw [hj] at h
      have he : e' = e := by simpa using h
      obtain ⟨v, hv⟩ := joinHeaderValues_error kv.2 e' hj
      exact ⟨v, by rw [← he]; exact hv⟩
    · rw [hj] at h
      rcases hc : collectHeaders rest with e' | out
      · rw [hc] at h
        have h2 : (Except.error e' : Except Error (List (String × String))) =
          Except.error e := h
        have he : e' = e := by simpa using h2
        obtain ⟨v, hv⟩ := ih e' hc
        exact ⟨v, by rw [← he]; exact hv⟩
      · rw [hc] at h
        simp only [Except.map_ok] at h
        cases h

/-- Every input header contributes its aggregated pair to a successful
`collectHeaders` result. -/
theorem collectHeaders_mem :
    ∀ (hs : List (String × List (List Nat))) (out : List (String × String)),
      collectHeaders hs = .ok out →
      ∀ kv ∈ hs, ∃ parts, joinHeaderValues kv.2 = .ok parts ∧
        (asciiLower kv.1, String.intercalate "," parts) ∈ out := by
  intro hs
  induction hs with
  | nil => intro out _ kv hkv; cases hkv
  | cons kv0 rest ih =>
    intro out h kv hkv
    simp only [collectHeaders] at h
    rcases hj : joinHeaderValues kv0.2 with e | parts0
    · rw [hj] at h
      cases h
    · rw [hj] at h
      rcases hc : collectHeaders rest with e | out'
      · rw [hc] at h
        simp only [Except.map_error] at h
        cases h
      · rw [hc] at h
        simp only [Except.map_ok] at h
        cases h
        rcases List.mem_cons.mp hkv with rfl | hkv'
        · exact ⟨parts0, hj, by simp⟩
        · obtain ⟨parts, hjp, hmem⟩ := ih out' hc kv hkv'
          exact ⟨parts, hjp, by simp [hmem]⟩

/-- `collectHeaders` of the host-injected header map always contains the
aggregated `host: storage.googleapis.com` pair. -/
theorem host_mem (headers : List (String × List (List Nat)))
    (out : List (String × String))
    (hch : collectHeaders (hostInsert headers) = .ok out) :
    ("host", "storage.googleapis.com") ∈ out := by
  have hmem : ("host", [strBytes "storage.googleapis.com"]) ∈ hostInsert headers := by
    simp [hostInsert]
  obtain ⟨parts, hj, hmem2⟩ := collectHeaders_mem _ _ hch _ hmem
  have hjv : joinHeaderValues [strBytes "storage.googleapis.com"] =
      .ok ["storage.googleapis.com"] := rfl
  rw [hjv] at hj
  cases hj
  exact hmem2

/-- C5: a duration beyond 604800 seconds is rejected with
`TooLongExpiration {requested, max}` regardless of the digest and signing
capabilities (no cryptography runs — the result does not depend on them),
and with a duration of at most 604800 seconds that error is never produced
(any error is either an opaque-header failure or the signer's own). -/
theorem signed_url_expiration_guard (digest : String → List Nat)
    (sign : String → Except Error (List Nat)) (authorizer bucket object : String)
    (now : UtcTimestamp) (optional : SignedUrlOptional) :
    (604800 < optional.durationSecs →
      ∀ (digest' : String → List Nat) (sign' : String → Except Error (List Nat)),
        UrlSigner.generate digest' sign' authorizer bucket object now optional =
          .error (.TooLongExpiration optional.durationSecs 604800)) ∧
    (optional.durationSecs ≤ 604800 →
      (∀ s r mx, sign s ≠ .error (.TooLongExpiration r mx)) →
      ∀ r mx, UrlSigner.generate digest sign authorizer bucket object now optional ≠
        .error (.TooLongExpiration r mx)) := by
  constructor
  · intro h digest' sign'
    unfold UrlSigner.generate
    rw [if_pos h]
  · intro hle hsign r mx
    unfold UrlSigner.generate
    rw [if_neg (by omega)]
    rcases hch : collectHeaders (hostInsert optional.headers) with e | hdrs0
    · obtain ⟨v, rfl⟩ := collectHeaders_error _ _ hch
      intro heq
      simp at heq
    · dsimp only
      rcases hsg : sign (genStringToSign digest authorizer bucket object now optional hdrs0)
        with e | sig
      · intro heq
        simp only [Except.error.injEq] at heq
        exact hsign _ r mx (by rw [hsg, heq])
      · intro heq
        simp at heq

/-- Witness for C5: over-long duration rejected; a 60-second duration is
never rejected for expiration. -/
theorem signed_url_expiration_guard_witness :
    UrlSigner.generate (fun _ => []) (fun _ => .ok []) "acct" "b-k-t" "obj"
        ⟨2020, 1, 2, 3, 4, 5⟩ { durationSecs := 604801 } =
      .error (.TooLongExpiration 604801 604800) ∧
    UrlSigner.generate (fun _ => []) (fun _ => .ok []) "acct" "b-k-t" "obj"
        ⟨2020, 1, 2, 3, 4, 5⟩ { durationSecs := 60 } ≠
      .error (.TooLongExpiration 1 604800) :=
  ⟨(signed_url_expiration_guard (fun _ => []) (fun _ => .ok []) "acct" "b-k-t" "obj"
      ⟨2020, 1, 2, 3, 4, 5⟩ { durationSecs := 604801 }).1 (by decide) _ _,
    (signed_url_expiration_guard (fun _ => []) (fun _ => .ok []) "acct" "b-k-t" "obj"
      ⟨2020, 1, 2, 3, 4, 5⟩ { durationSecs := 60 }).2 (by decide)
      (fun s r mx h => by cases h) 1 604800⟩

/-- C2: with an accepted duration and `HeaderMap`-shaped headers (names
aggregated uniquely), `generate` injects `host: storage.googleapis.com`,
and produces the canonical request
`METHOD\nPATH\nSORTED_QUERY\nCANONICAL_HEADERS\n\nSIGNED_HEADERS\nUNSIGNED-PAYLOAD`
built from the lower-cased, comma-joined header pairs sorted by name (each
canonical header line `name:value` with a trailing newline, signed headers
semicolon-joined in the same order), and the string handed to the signer is
`GOOG4-RSA-SHA256\n{request_timestamp}\n{credential_scope}\n{hex SHA-256 of
the canonical request}`. -/
theorem signed_url_canonical_request (digest : String → List Nat)
    (sign : String → Except Error (List Nat)) (authorizer bucket object : String)
    (now : UtcTimestamp) (optional : SignedUrlOptional)
    (hdrs0 : List (String × String)) (sig : List Nat)
    (hdur : optional.durationSecs ≤ 604800)
    (hch : collectHeaders (hostInsert optional.headers) = .ok hdrs0)
    (huniq : ∀ x ∈ hdrs0, ∀ y ∈ hdrs0, x.1 = y.1 → x.2 = y.2)
    (hsg : sign (genStringToSign digest authorizer bucket object now optional hdrs0) =
      .ok sig) :
    ("host", "storage.googleapis.com") ∈ hdrs0 ∧
    ∃ a, UrlSigner.generate digest sign authorizer bucket object now optional = .ok a ∧
      a.canonicalRequest = optional.method ++ "\n" ++ sigResourcePath bucket object
        ++ "\n" ++ formUrlEncodePairs (stableSort pairLeB (optional.queryParams
          ++ signingParams authorizer now optional
            (String.intercalate ";" ((stableSort nameLeB hdrs0).map Prod.fst))))
        ++ "\n" ++ String.join ((stableSort nameLeB hdrs0).map
          fun kv => kv.1 ++ ":" ++ kv.2 ++ "\n")
        ++ "\n" ++ String.intercalate ";" ((stableSort nameLeB hdrs0).map Prod.fst)
        ++ "\nUNSIGNED-PAYLOAD" ∧
      a.stringToSign = "GOOG4-RSA-SHA256\n" ++ formatTimestamp now ++ "\n"
        ++ ((formatTimestamp now).take 8 ++ "/" ++ optional.region
          ++ "/storage/goog4_request")
        ++ "\n" ++ toHex (digest a.canonicalRequest) := by
  have hsort : stableSort pairLeB hdrs0 = stableSort nameLeB hdrs0 :=
    sortPairs_eq_sortByName hdrs0 huniq
  refine ⟨host_mem optional.headers hdrs0 hch, ?_⟩
  unfold UrlSigner.generate
  rw [if_neg (by omega), hch]
  dsimp only
  rw [hsg]
  refine ⟨_, rfl, ?_, ?_⟩
  · show genCanonicalRequest authorizer bucket object now optional hdrs0 = _
    unfold genCanonicalRequest canonicalRequestStr genCanonicalQuery
      canonicalHeadersStr signedHeadersStr
    rw [hsort]
  · show genStringToSign digest authorizer bucket object now optional hdrs0 = _
    unfold genStringToSign stringToSignStr credScope
    rfl

/-- Witness for C2 at concrete capabilities, identifiers, clock and empty
optional parameters. -/
theorem signed_url_canonical_request_witness :
    ("host", "storage.googleapis.com") ∈ [("host", "storage.googleapis.com")] ∧
    ∃ a, UrlSigner.generate (fun _ => []) (fun _ => .ok []) "acct" "b-k-t" "obj"
        ⟨2020, 1, 2, 3, 4, 5⟩ {} = .ok a ∧
      a.canonicalRequest = "GET" ++ "\n" ++ sigResourcePath "b-k-t" "obj"
        ++ "\n" ++ formUrlEncodePairs (stableSort pairLeB (([] : List (String × String))
          ++ signingParams "acct" ⟨2020, 1, 2, 3, 4, 5⟩ {}
            (String.intercalate ";"
              ((stableSort nameLeB [("host", "storage.googleapis.com")]).map Prod.fst))))
        ++ "\n" ++ String.join
          ((stableSort nameLeB [("host", "storage.googleapis.com")]).map
            fun kv => kv.1 ++ ":" ++ kv.2 ++ "\n")
        ++ "\n" ++ String.intercalate ";"
          ((stableSort nameLeB [("host", "storage.googleapis.com")]).map Prod.fst)
        ++ "\nUNSIGNED-PAYLOAD" ∧
      a.stringToSign = "GOOG4-RSA-SHA256\n" ++ formatTimestamp ⟨2020, 1, 2, 3, 4, 5⟩
        ++ "\n" ++ ((formatTimestamp ⟨2020, 1, 2, 3, 4, 5⟩).take 8 ++ "/" ++ "auto"
          ++ "/storage/goog4_request")
        ++ "\n" ++ toHex ((fun _ => ([] : List Nat)) a.canonicalRequest) :=
  signed_url_canonical_request (fun _ => []) (fun _ => .ok []) "acct" "b-k-t" "obj"
    ⟨2020, 1, 2, 3, 4, 5⟩ {} [("host", "storage.googleapis.com")] []
    (by decide) rfl (by decide) rfl

/-- `try_from_parts` on a success status: the constructor is applied. -/
theorem tryFromParts_success {T : Type} (parseApiErr : List Nat → Option ApiError)
    (ctor : HttpResponse → Except Error T) (resp : HttpResponse)
    (h : isSuccessStatus resp.status = true) :
    tryFromParts parseApiErr ctor resp = ctor resp := by
  unfold tryFromParts
  rw [h]
  exact if_pos rfl

/-- `try_from_parts` on a non-success status with a JSON content type and a
parsing error body: the structured API error. -/
theorem tryFromParts_api {T : Type} (parseApiErr : List Nat → Option ApiError)
    (ctor : HttpResponse → Except Error T) (resp : HttpResponse) (ct : String)
    (err : ApiError) (h : isSuccessStatus resp.status = false)
    (hct : (headerGet resp.headers "content-type").bind headerToStr = some ct)
    (hjson : listStartsWith "application/json".data ct.data = true)
    (hp : parseApiErr resp.body = some err) :
    tryFromParts parseApiErr ctor resp = .error (.Api err) := by
  unfold tryFromParts
  rw [h, if_neg Bool.false_ne_true, hct]
  dsimp only
  rw [if_pos hjson, hp]

/-- `try_from_parts` on any other non-success response: the bare
HTTP-status error. -/
theorem tryFromParts_fallback {T : Type} (parseApiErr : List Nat → Option ApiError)
    (ctor : HttpResponse → Except Error T) (resp : HttpResponse)
    (h : isSuccessStatus resp.status = false)
    (hno : ¬∃ ct, (headerGet resp.headers "content-type").bind headerToStr = some ct ∧
      listStartsWith "application/json".data ct.data = true ∧
      ∃ err, parseApiErr resp.body = some err) :
    tryFromParts parseApiErr ctor resp = .error (.HttpStatus resp.status) := by
  unfold tryFromParts
  rw [h, if_neg Bool.false_ne_true]
  rcases hct : (headerGet resp.headers "content-type").bind headerToStr with _ | ct
  · rfl
  · dsimp only
    by_cases hjson : listStartsWith "application/json".data ct.data = true
    · rw [if_pos hjson]
      rcases hp : parseApiErr resp.body with _ | err
      · rfl
      · exact absurd ⟨ct, hct, hjson, err, hp⟩ hno
    · rw [if_neg hjson]

/-- C3 (amended): for a decoder whose parts declare `Content-Length` N,
parsing with fewer than N buffered bytes gives the recoverable
`InsufficientData`; feeding a decoder twice equals feeding it the
concatenation (the same decoder can be fed more and parsed again); with at
least N bytes the window is exactly the first N buffered bytes, handed to
the operation constructor on success, turned into the structured API error
on a JSON-typed non-success body that parses, and into the bare HTTP-status
error otherwise; when `Content-Length` is absent the declared length is
zero, so the window is empty (not "however many bytes are buffered"). -/
theorem response_decoder_cascade {T : Type} (status : Nat)
    (headers : List (String × List Nat)) (N : Nat)
    (parseApiErr : List Nat → Option ApiError) (ctor : HttpResponse → Except Error T) :
    (get_content_length headers = some N →
      (∀ bytes : List Nat, bytes.length < N →
        ((ResponseState.new status headers).write bytes).get_response =
          .error .InsufficientData) ∧
      (∀ bytes : List Nat, N ≤ bytes.length →
        ((ResponseState.new status headers).write bytes).get_response =
          .ok ⟨status, headers, bytes.take N⟩) ∧
      (∀ bytes : List Nat, N ≤ bytes.length → isSuccessStatus status = true →
        ((ResponseState.new status headers).write bytes).parse parseApiErr ctor =
          ctor ⟨status, headers, bytes.take N⟩) ∧
      (∀ bytes ct err, N ≤ bytes.length → isSuccessStatus status = false →
        (headerGet headers "content-type").bind headerToStr = some ct →
        listStartsWith "application/json".data ct.data = true →
        parseApiErr (bytes.take N) = some err →
        ((ResponseState.new status headers).write bytes).parse parseApiErr ctor =
          .error (.Api err)) ∧
      (∀ bytes : List Nat, N ≤ bytes.length → isSuccessStatus status = false →
        (¬∃ ct, (headerGet headers "content-type").bind headerToStr = some ct ∧
          listStartsWith "application/json".data ct.data = true ∧
          ∃ err, parseApiErr (bytes.take N) = some err) →
        ((ResponseState.new status headers).write bytes).parse parseApiErr ctor =
          .error (.HttpStatus status))) ∧
    (∀ b1 b2 : List Nat, ((ResponseState.new status headers).write b1).write b2 =
      (ResponseState.new status headers).write (b1 ++ b2)) ∧
    (get_content_length headers = none →
      ∀ bytes : List Nat,
        ((ResponseState.new status headers).write bytes).get_response =
          .ok ⟨status, headers, []⟩) := by
  refine ⟨?_, ?_, ?_⟩
  · intro hcl
    have hwin : ∀ bytes : List Nat, N ≤ bytes.length →
        ((ResponseState.new status headers).write bytes).get_response =
          .ok (⟨status, headers, bytes.take N⟩ : HttpResponse) := by
      intro bytes hge
      simp only [ResponseState.get_response, ResponseState.write, ResponseState.new, hcl]
      rw [if_pos (by simpa using hge)]
      simp
    refine ⟨?_, hwin, ?_, ?_, ?_⟩
    · intro bytes hlt
      simp only [ResponseState.get_response, ResponseState.write, ResponseState.new, hcl]
      rw [if_neg (by simpa using hlt)]
    · intro bytes hge hsucc
      simp only [ResponseState.parse]
      rw [hwin bytes hge]
      exact tryFromParts_success parseApiErr ctor _ hsucc
    · intro bytes ct err hge hfail hct hjson hparse
      simp only [ResponseState.parse]
      rw [hwin bytes hge]
      exact tryFromParts_api parseApiErr ctor _ ct err hfail hct hjson hparse
    · intro bytes hge hfail hno
      simp only [ResponseState.parse]
      rw [hwin bytes hge]
      exact tryFromParts_fallback parseApiErr ctor _ hfail hno
  · intro b1 b2
    simp [ResponseState.write]
  · intro hcl bytes
    simp only [ResponseState.get_response, ResponseState.write, ResponseState.new, hcl]
    rw [if_pos (by simp)]
    simp

/-- Witness for C3 (amended) at a concrete 404/JSON decoder and a concrete
success decoder. -/
theorem response_decoder_cascade_witness :
    (((ResponseState.new 404 [("content-length", strBytes "5"),
        ("content-type", strBytes "application/json")]).write [1, 2]).get_response =
      .error .InsufficientData) ∧
    (((ResponseState.new 404 [("content-length", strBytes "5"),
        ("content-type", strBytes "application/json")]).write
          [1, 2, 3, 4, 5]).parse
        (fun _ => some ⟨404, "not found", []⟩) (fun r => .ok r.body) =
      .error (.Api ⟨404, "not found", []⟩)) ∧
    (((ResponseState.new 200 [("content-length", strBytes "5")]).write
          [1, 2, 3, 4, 5, 6]).parse (fun _ => none) (fun r => .ok r.body) =
      .ok [1, 2, 3, 4, 5]) := by
  refine ⟨?_, ?_, ?_⟩
  · exact ((response_decoder_cascade 404
      [("content-length", strBytes "5"), ("content-type", strBytes "application/json")]
      5 (fun _ => some ⟨404, "not found", []⟩) (fun r => .ok r.body)).1 rfl).1
      [1, 2] (by decide)
  · exact ((response_decoder_cascade 404
      [("content-length", strBytes "5"), ("content-type", strBytes "application/json")]
      5 (fun _ => some ⟨404, "not found", []⟩) (fun r => .ok r.body)).1 rfl).2.2.2.1
      [1, 2, 3, 4, 5] "application/json" ⟨404, "not found", []⟩
      (by decide) rfl rfl (by decide) rfl
  · exact ((response_decoder_cascade 200 [("content-length", strBytes "5")]
      5 (fun _ => none) (fun r => .ok r.body)).1 rfl).2.2.1
      [1, 2, 3, 4, 5, 6] (by decide) rfl

/-- C3 (counterexample): with no `Content-Length` header the decoder's
declared length is zero (`BytesMut::new()` has capacity 0), so after
buffering three bytes `get_response` succeeds with an *empty* window — not
with "however many bytes have been buffered so far" as the claim states. -/
theorem response_decoder_absent_length_counterexample :
    get_content_length [] = none ∧
    ((ResponseState.new 200 []).write [1, 2, 3]).body = [1, 2, 3] ∧
    ((ResponseState.new 200 []).write [1, 2, 3]).get_response =
      .ok { status := 200, headers := [], body := [] } := ⟨rfl, rfl, rfl⟩

/-- C4: interpreting a resumable-upload response.  Status 308 parses the
`Range` header and yields `PartialSize(v + 1)` for the numeric value `v`
after the last `-` (a missing header, a non-string value, or an
unparseable value is an error); status 200/201 yields `Complete` with the
parsed `Metadata`; any other status with a `text/plain` content type and a
non-empty (UTF-8) body yields the structured API error carrying the raw
message and the status code; any other status yields the plain HTTP-status
error; and cancellation succeeds exactly on status 499. -/
theorem resumable_response_interpretation (parseMeta : List Nat → Option Metadata)
    (resp : HttpResponse) :
    (∀ rv range v, resp.status = 308 →
      headerGet resp.headers "range" = some rv →
      headerToStr rv = some range →
      parseU64 (afterLastDash range) = some v →
      ResumableInsertResponse.try_from_response parseMeta resp =
        .ok (.PartialSize (v + 1))) ∧
    (resp.status = 308 → headerGet resp.headers "range" = none →
      ResumableInsertResponse.try_from_response parseMeta resp =
        .error (.UnknownHeader "range")) ∧
    (∀ rv, resp.status = 308 → headerGet resp.headers "range" = some rv →
      headerToStr rv = none →
      ResumableInsertResponse.try_from_response parseMeta resp =
        .error (.OpaqueHeaderValue rv)) ∧
    (∀ rv range, resp.status = 308 → headerGet resp.headers "range" = some rv →
      headerToStr rv = some range → parseU64 (afterLastDash range) = none →
      ResumableInsertResponse.try_from_response parseMeta resp =
        .error (.OpaqueHeaderValue rv)) ∧
    (∀ md, (resp.status = 200 ∨ resp.status = 201) → parseMeta resp.body = some md →
      ResumableInsertResponse.try_from_response parseMeta resp =
        .ok (.Complete md)) ∧
    (∀ ct msg, ¬(resp.status = 308 ∨ resp.status = 200 ∨ resp.status = 201) →
      (headerGet resp.headers "content-type").bind headerToStr = some ct →
      listStartsWith "text/plain".data ct.data = true → resp.body ≠ [] →
      utf8DecodeStr resp.body = some msg →
      ResumableInsertResponse.try_from_response parseMeta resp =
        .error (.Api { code := resp.status, message := msg, errors := [] })) ∧
    (¬(resp.status = 308 ∨ resp.status = 200 ∨ resp.status = 201) →
      (¬∃ ct, (headerGet resp.headers "content-type").bind headerToStr = some ct ∧
        listStartsWith "text/plain".data ct.data = true ∧ resp.body ≠ [] ∧
        ∃ msg, utf8DecodeStr resp.body = some msg) →
      ResumableInsertResponse.try_from_response parseMeta resp =
        .error (.HttpStatus resp.status)) ∧
    (CancelResumableInsertResponse.try_from_response resp = .ok () ↔
      resp.status = 499) := by
  refine ⟨?_, ?_, ?_, ?_, ?_, ?_, ?_, ?_⟩
  · intro rv range v h308 hrv hts hparse
    unfold ResumableInsertResponse.try_from_response
    rw [if_pos (Or.inl h308)]
    unfold ResumableInsertResponse.tryFrom
    rw [if_pos h308, hrv]
    dsimp only
    rw [hts]
    dsimp only
    rw [hparse]
  · intro h308 hrv
    unfold ResumableInsertResponse.try_from_response
    rw [if_pos (Or.inl h308)]
    unfold ResumableInsertResponse.tryFrom
    rw [if_pos h308, hrv]
  · intro rv h308 hrv hts
    unfold ResumableInsertResponse.try_from_response
    rw [if_pos (Or.inl h308)]
    unfold ResumableInsertResponse.tryFrom
    rw [if_pos h308, hrv]
    dsimp only
    rw [hts]
  · intro rv range h308 hrv hts hparse
    unfold ResumableInsertResponse.try_from_response
    rw [if_pos (Or.inl h308)]
    unfold ResumableInsertResponse.tryFrom
    rw [if_pos h308, hrv]
    dsimp only
    rw [hts]
    dsimp only
    rw [hparse]
  · intro md hok hp
    have h308 : ¬resp.status = 308 := by
      rcases hok with h | h <;> omega
    unfold ResumableInsertResponse.try_from_response
    rw [if_pos (Or.inr hok)]
    unfold ResumableInsertResponse.tryFrom
    rw [if_neg h308, hp]
  · intro ct msg hst hct hsw hnb hmsg
    unfold ResumableInsertResponse.try_from_response
    rw [if_neg hst, hct]
    dsimp only
    rw [if_pos ⟨hsw, hnb⟩, hmsg]
  · intro hst hno
    unfold ResumableInsertResponse.try_from_response
    rw [if_neg hst]
    rcases hct : (headerGet resp.headers "content-type").bind headerToStr with _ | ct
    · rfl
    · dsimp only
      by_cases hcond : listStartsWith "text/plain".data ct.data = true ∧ resp.body ≠ []
      · rw [if_pos hcond]
        rcases hmsg : utf8DecodeStr resp.body with _ | msg
        · rfl
        · exact absurd ⟨ct, hct, hcond.1, hcond.2, msg, hmsg⟩ hno
      · rw [if_neg hcond]
  · constructor
    · intro hok
      by_cases h : resp.status = 499
      · exact h
      · unfold CancelResumableInsertResponse.try_from_response at hok
        rw [if_neg h] at hok
        cases hok
    · intro h
      unfold CancelResumableInsertResponse.try_from_response
      rw [if_pos h]

/-- Witness for C4 at concrete responses: a 308 with
`Range: bytes=0-1023` reports `PartialSize 1024`, a 200 completes with the
parsed metadata, a 400 `text/plain` body becomes the structured API error
with the raw message, and cancellation accepts 499. -/
theorem resumable_response_interpretation_witness :
    ResumableInsertResponse.try_from_response (fun _ => none)
        ⟨308, [("range", strBytes "bytes=0-1023")], []⟩ =
      .ok (.PartialSize 1024) ∧
    ResumableInsertResponse.try_from_response (fun _ => some Metadata.empty)
        ⟨200, [], []⟩ = .ok (.Complete Metadata.empty) ∧
    ResumableInsertResponse.try_from_response (fun _ => none)
        ⟨400, [("content-type", strBytes "text/plain")], strBytes "oops"⟩ =
      .error (.Api { code := 400, message := "oops", errors := [] }) ∧
    CancelResumableInsertResponse.try_from_response ⟨499, [], []⟩ = .ok () := by
  refine ⟨?_, ?_, ?_, ?_⟩
  · exact (resumable_response_interpretation (fun _ => none)
      ⟨308, [("range", strBytes "bytes=0-1023")], []⟩).1
      (strBytes "bytes=0-1023") "bytes=0-1023" 1023 rfl rfl rfl rfl
  · exact (resumable_response_interpretation (fun _ => some Metadata.empty)
      ⟨200, [], []⟩).2.2.2.2.1 Metadata.empty (Or.inl rfl) rfl
  · exact (resumable_response_interpretation (fun _ => none)
      ⟨400, [("content-type", strBytes "text/plain")], strBytes "oops"⟩).2.2.2.2.2.1
      "text/plain" "oops" (by decide) rfl rfl (by decide) rfl
  · exact (resumable_response_interpretation (fun _ => none)
      ⟨499, [], []⟩).2.2.2.2.2.2.2.mpr rfl

end Gcs
